import Mathlib

/-!
# Camlistore: blob references and the blob server's GET handler

A shallow embedding of `lib/go/blobref/blobref.go`, of `handleGet` in
`server/go/blobserver/get.go` and of `blobDetails`, `UploadFileBlob`,
`UploadMap` and `UploadFile` in `clients/go/camput/camput.go`.

Conventions of the embedding

* A Go `string` and a Go `[]byte` are both sequences of bytes: `Bytes`, a list
  of natural numbers, each byte a number below 256.  Where the Go code reads a
  string as text (the regexp package, `bytes.IndexAny`, `[]int(s)`) the model
  decodes UTF-8 with `decodeRune`, as the Go library does.
* A nil pointer result is `none`; a nil slice is the empty list.
* Library code the handler calls (the regexp matcher, SHA-1, the UTF-8
  decoder) is modelled here from its documented behaviour; the JSON decoder,
  the fetcher, the clock and the connection are inputs of the handler, the
  file system and the packages `camli/client` and `camli/schema` inputs of
  the uploader.
-/

namespace Camli

/-- A Go string or byte slice. -/
abbrev Bytes := List Nat

/-- The bytes (UTF-8) of a string literal of the source. -/
def str (s : String) : Bytes :=
  s.toList.flatMap (fun c => (String.utf8EncodeChar c).map UInt8.toNat)

/-! ## unicode/utf8 -/

/-- The rune Go returns for a malformed encoding, U+FFFD. -/
def RuneError : Nat := 0xFFFD

/-- A continuation byte: 10xxxxxx. -/
def isCont (c : Nat) : Bool := decide (0x80 ≤ c) && decide (c < 0xC0)

/-- Go's `utf8.DecodeRune`: the first rune of `p` and its width in bytes.  A
malformed or truncated encoding is `(RuneError, 1)`, the empty input
`(RuneError, 0)`.  Over-long encodings are malformed. -/
def decodeRune : Bytes → Nat × Nat
  | [] => (RuneError, 0)
  | c0 :: rest =>
    if c0 < 0x80 then (c0, 1)
    else if c0 < 0xC0 then (RuneError, 1)
    else
      match rest with
      | [] => (RuneError, 1)
      | c1 :: rest1 =>
        if !isCont c1 then (RuneError, 1)
        else if c0 < 0xE0 then
          let r := (c0 % 0x20) * 0x40 + c1 % 0x40
          if r ≤ 0x7F then (RuneError, 1) else (r, 2)
        else
          match rest1 with
          | [] => (RuneError, 1)
          | c2 :: rest2 =>
            if !isCont c2 then (RuneError, 1)
            else if c0 < 0xF0 then
              let r := (c0 % 0x10) * 0x1000 + (c1 % 0x40) * 0x40 + c2 % 0x40
              if r ≤ 0x7FF then (RuneError, 1) else (r, 3)
            else
              match rest2 with
              | [] => (RuneError, 1)
              | c3 :: _ =>
                if !isCont c3 then (RuneError, 1)
                else if c0 < 0xF8 then
                  let r := (c0 % 0x08) * 0x40000 + (c1 % 0x40) * 0x1000
                    + (c2 % 0x40) * 0x40 + c3 % 0x40
                  if r ≤ 0xFFFF then (RuneError, 1) else (r, 4)
                else (RuneError, 1)

/-- The runes of a byte string, as the conversion `[]int(s)` and the `range`
loop over a string produce them.  The second argument counts the bytes of the
current rune still to be skipped. -/
def runesAux : Nat → Bytes → List Nat
  | _, [] => []
  | skip + 1, _ :: tl => runesAux skip tl
  | 0, b :: tl => (decodeRune (b :: tl)).1 :: runesAux ((decodeRune (b :: tl)).2 - 1) tl

/-- The runes of a byte string. -/
def runes (s : Bytes) : List Nat := runesAux 0 s

/-! ## regexp -/

/-- A compiled regular expression: the fragment of the regexp syntax that the
patterns over blob references use.  A capture group carries the index the
compiler gave it, counting opening parentheses from 1. -/
inductive Regexp where
  | bot : Regexp
  | eot : Regexp
  | char : Nat → Regexp
  | cls : List (Nat × Nat) → Regexp
  | cat : Regexp → Regexp → Regexp
  | plus : Regexp → Regexp
  | group : Nat → Regexp → Regexp

/-- A state of the matcher: the byte offset reached, the text not yet read,
and the submatches recorded so far, the latest first. -/
structure MState where
  pos : Nat
  rest : Bytes
  caps : List (Nat × Bytes)
deriving DecidableEq, Repr

/-- Consume one rune when it satisfies `p`. -/
def stepRune (p : Nat → Bool) (s : MState) : List MState :=
  match s.rest with
  | [] => []
  | b :: tl =>
    if p (decodeRune (b :: tl)).1 then
      [{ s with pos := s.pos + (decodeRune (b :: tl)).2,
                rest := (b :: tl).drop (decodeRune (b :: tl)).2 }]
    else []

/-- Membership of a rune in a character class given by its ranges. -/
def inClass (rs : List (Nat × Nat)) (r : Nat) : Bool :=
  rs.any (fun lh => decide (lh.1 ≤ r) && decide (r ≤ lh.2))

/-- One or more repetitions of `step`, the longer matches first.  An
iteration that consumes nothing ends the loop; the counter bounds the
iterations by the length of the unread text. -/
def plusLoop (step : MState → List MState) : Nat → MState → List MState
  | 0, _ => []
  | n + 1, s =>
    (step s).flatMap (fun s1 =>
      (if s1.rest.length < s.rest.length then plusLoop step n s1 else []) ++ [s1])

/-- All the ways `re` matches at state `s`, in order of preference: a
repetition takes as much as it can first.  The patterns over blob references
match a text in one way at most, so that the order plays no part for them. -/
def run : Regexp → MState → List MState
  | .bot, s => if s.pos = 0 then [s] else []
  | .eot, s => if s.rest = [] then [s] else []
  | .char c, s => stepRune (fun r => decide (r = c)) s
  | .cls rs, s => stepRune (inClass rs) s
  | .cat a b, s => (run a s).flatMap (run b)
  | .plus a, s => plusLoop (run a) (s.rest.length + 1) s
  | .group i a, s =>
    (run a s).map (fun t => { t with caps := (i, s.rest.take (t.pos - s.pos)) :: t.caps })

/-- The number of capture groups of a pattern. -/
def numGroups : Regexp → Nat
  | .cat a b => numGroups a + numGroups b
  | .plus a => numGroups a
  | .group _ a => numGroups a + 1
  | _ => 0

/-- The leftmost match: try the pattern at each rune boundary in turn. -/
def searchFrom (re : Regexp) : Nat → Nat → Bytes → Option (Nat × MState)
  | pos, _, [] => ((run re ⟨pos, [], []⟩).head?).map (fun m => (pos, m))
  | pos, skip + 1, _ :: tl => searchFrom re (pos + 1) skip tl
  | pos, 0, b :: tl =>
    match (run re ⟨pos, b :: tl, []⟩).head? with
    | some m => some (pos, m)
    | none => searchFrom re (pos + 1) ((decodeRune (b :: tl)).2 - 1) tl

/-- Go's `(*Regexp).FindStringSubmatch`: the text of the leftmost match and of
each capture group (empty for a group that took no part), or nil, the empty
slice, when there is no match. -/
def FindStringSubmatch (re : Regexp) (s : Bytes) : List Bytes :=
  match searchFrom re 0 0 s with
  | none => []
  | some (start, m) =>
    (s.drop start).take (m.pos - start) ::
      (List.range (numGroups re)).map (fun i => (m.caps.lookup (i + 1)).getD [])

/-! ## lib/go/blobref/blobref.go -/

/-- The pattern `^([a-z0-9]+)-([a-f0-9]+)$`. -/
def kBlobRefPattern : Regexp :=
  .cat .bot
    (.cat (.group 1 (.plus (.cls [(0x61, 0x7A), (0x30, 0x39)])))
      (.cat (.char 0x2D)
        (.cat (.group 2 (.plus (.cls [(0x61, 0x66), (0x30, 0x39)]))) .eot)))

/-- The struct `BlobRef`. -/
structure BlobRef where
  hashName : Bytes
  digest : Bytes
deriving DecidableEq, Repr

/-- The method `(*BlobRef).String`: `fmt.Sprintf("%s-%s", o.hashName, o.digest)`. -/
def BlobRef.String (o : BlobRef) : Bytes :=
  o.hashName ++ str "-" ++ o.digest

/-- The map `kExpectedDigestSize`; a key that is absent reads as 0. -/
def kExpectedDigestSize (hashname : Bytes) : Nat :=
  ([(str "md5", 32), (str "sha1", 40)].lookup hashname).getD 0

/-- The function `blobIfValid`. -/
def blobIfValid (hashname digest : Bytes) : Option BlobRef :=
  let expectedSize := kExpectedDigestSize hashname
  if expectedSize ≠ 0 ∧ digest.length ≠ expectedSize then none
  else some ⟨hashname, digest⟩

/-- The function `FromPattern`. -/
def FromPattern (r : Regexp) (s : Bytes) : Option BlobRef :=
  let «matches» := FindStringSubmatch r s
  if «matches».length ≠ 3 then none
  else blobIfValid («matches».getD 1 []) («matches».getD 2 [])

/-- The function `Parse`. -/
def Parse (ref : Bytes) : Option BlobRef :=
  FromPattern kBlobRefPattern ref

/-! ## crypto/sha1 and the hash.Hash interface -/

/-- Rotate a 32-bit word left. -/
def rotl32 (x n : Nat) : Nat := ((x <<< n) ||| (x >>> (32 - n))) % 2 ^ 32

/-- The four bytes of a 32-bit word, most significant first. -/
def be32 (w : Nat) : Bytes := [w / 2 ^ 24 % 256, w / 2 ^ 16 % 256, w / 2 ^ 8 % 256, w % 256]

/-- The padded message of SHA-1: the message, a 1 bit, zeros up to 56 modulo
64 bytes, and the bit length as a 64-bit big-endian number. -/
def sha1Pad (msg : Bytes) : Bytes :=
  msg.map (· % 256) ++ [0x80] ++ List.replicate ((119 - msg.length % 64) % 64) 0
    ++ be32 (8 * msg.length / 2 ^ 32 % 2 ^ 32) ++ be32 (8 * msg.length % 2 ^ 32)

/-- The sixteen big-endian words of a 64-byte block. -/
def blockWords (block : Bytes) : List Nat :=
  (List.range 16).map (fun i =>
    block.getD (4 * i) 0 * 2 ^ 24 + block.getD (4 * i + 1) 0 * 2 ^ 16
      + block.getD (4 * i + 2) 0 * 2 ^ 8 + block.getD (4 * i + 3) 0)

/-- The message schedule: the sixteen words of the block extended to eighty. -/
def schedule (ws : List Nat) : List Nat :=
  (List.range 64).foldl (fun w j =>
    w ++ [rotl32 (w.getD (j + 13) 0 ^^^ w.getD (j + 8) 0 ^^^ w.getD (j + 2) 0 ^^^ w.getD j 0) 1]) ws

/-- The chaining value of SHA-1: five 32-bit words. -/
structure Sha1State where
  h0 : Nat
  h1 : Nat
  h2 : Nat
  h3 : Nat
  h4 : Nat

/-- One of the eighty rounds. -/
def sha1Round (w : List Nat) (s : Sha1State) (t : Nat) : Sha1State :=
  let f := if t < 20 then (s.h1 &&& s.h2) ||| ((s.h1 ^^^ 0xFFFFFFFF) &&& s.h3)
    else if t < 40 then s.h1 ^^^ s.h2 ^^^ s.h3
    else if t < 60 then (s.h1 &&& s.h2) ||| (s.h1 &&& s.h3) ||| (s.h2 &&& s.h3)
    else s.h1 ^^^ s.h2 ^^^ s.h3
  let k := if t < 20 then 0x5A827999 else if t < 40 then 0x6ED9EBA1
    else if t < 60 then 0x8F1BBCDC else 0xCA62C1D6
  ⟨(rotl32 s.h0 5 + f + s.h4 + k + w.getD t 0) % 2 ^ 32, s.h0, rotl32 s.h1 30, s.h2, s.h3⟩

/-- The compression function on one block. -/
def sha1Block (s : Sha1State) (block : Bytes) : Sha1State :=
  let r := (List.range 80).foldl (sha1Round (schedule (blockWords block))) s
  ⟨(s.h0 + r.h0) % 2 ^ 32, (s.h1 + r.h1) % 2 ^ 32, (s.h2 + r.h2) % 2 ^ 32,
    (s.h3 + r.h3) % 2 ^ 32, (s.h4 + r.h4) % 2 ^ 32⟩

/-- The SHA-1 digest of a message: twenty bytes. -/
def sha1Sum (msg : Bytes) : Bytes :=
  let padded := sha1Pad msg
  let s := (List.range (padded.length / 64)).foldl
    (fun s i => sha1Block s ((padded.drop (64 * i)).take 64))
    ⟨0x67452301, 0xEFCDAB89, 0x98BADCFE, 0x10325476, 0xC3D2E1F0⟩
  be32 s.h0 ++ be32 s.h1 ++ be32 s.h2 ++ be32 s.h3 ++ be32 s.h4

/-- The lower-case hexadecimal digit of a number below 16. -/
def hexDigit (n : Nat) : Nat := if n < 10 then 0x30 + n else 0x61 + (n - 10)

/-- Go's `fmt.Sprintf("%x", bs)` for a byte slice: two lower-case hexadecimal
digits a byte. -/
def hexOf (bs : Bytes) : Bytes :=
  bs.flatMap (fun b => [hexDigit (b % 256 / 16), hexDigit (b % 16)])

/-- The interface `hash.Hash`, as far as the code uses it: the bytes written
so far and the digest the implementation computes from them. -/
structure Hash where
  digestFn : Bytes → Bytes
  written : Bytes

/-- The method `Write` of a hash. -/
def Hash.Write (h : Hash) (p : Bytes) : Hash := { h with written := h.written ++ p }

/-- The method `Sum` of a hash. -/
def Hash.Sum (h : Hash) : Bytes := h.digestFn h.written

/-- The constructor `sha1.New()`. -/
def sha1New : Hash := ⟨sha1Sum, []⟩

/-- The method `(*BlobRef).HashMatches`: `fmt.Sprintf("%x", h.Sum()) == o.digest`. -/
def BlobRef.HashMatches (o : BlobRef) (h : Hash) : Bool :=
  decide (hexOf h.Sum = o.digest)

/-- The function `FromHash`. -/
def FromHash (name : Bytes) (h : Hash) : BlobRef :=
  ⟨name, hexOf h.Sum⟩

/-! ## Readers -/

/-- A file as the fetcher or the file system hands it out: the bytes it
yields, whether a `Read` past the last byte reports an error instead of
end-of-file, and whether `Seek` reports an error. -/
structure File where
  data : Bytes
  readErr : Bool
  seekErr : Bool
deriving DecidableEq, Repr

/-- What an `io.Reader` will deliver: the bytes, then end-of-file or an error. -/
structure Stream where
  data : Bytes
  err : Bool
deriving DecidableEq, Repr

/-- The method `Seek(offset, 0)`: the stream from the new position, or `none`
for an error (a failing file, a negative offset). -/
def File.Seek (f : File) (offset : Int) : Option Stream :=
  if f.seekErr ∨ offset < 0 then none else some ⟨f.data.drop offset.toNat, f.readErr⟩

/-- The stream of a file read from its start. -/
def File.stream (f : File) : Stream := ⟨f.data, f.readErr⟩

/-- The reader `io.LimitReader(r, n)`: it stops with end-of-file after `n` bytes. -/
def LimitReader (r : Stream) (n : Int) : Stream :=
  if n.toNat ≤ r.data.length then ⟨r.data.take n.toNat, false⟩ else r

/-- The function `ioutil.ReadAll`. -/
def ReadAll (r : Stream) : Bytes × Bool := (r.data, r.err)

/-! ## clients/go/camput/camput.go -/

/-- An `io.ReadSeeker`: a file and the current offset in it. -/
structure ReadSeeker where
  file : File
  pos : Nat

/-- The function `blobDetails`: the blob reference, the size and the error.
The result of the `Seek` is ignored, as in the source: after a failed `Seek`
the copy starts at the current offset. -/
def blobDetails (contents : ReadSeeker) : Option BlobRef × Int × Bool :=
  let s1 := sha1New
  let input : Stream :=
    match contents.file.Seek 0 with
    | some s => s
    | none => ⟨contents.file.data.drop contents.pos, contents.file.readErr⟩
  let s1 := s1.Write input.data
  let size : Int := input.data.length
  let err := input.err
  if err = false then (some (FromHash (str "sha1") s1), size, err)
  else (none, size, err)

/-! ## server/go/blobserver/get.go -/

/-- A 64-bit signed result: Go's `int64` arithmetic wraps around. -/
def i64 (x : Int) : Int := (x + 2 ^ 63) % 2 ^ 64 - 2 ^ 63

/-- The constant `fetchFailureDelayNs`, 200 ms. -/
def fetchFailureDelayNs : Int := 200000000

/-- The constant `maxJsonSize`. -/
def maxJsonSize : Int := 64 * 1024

/-- The error of a fetch: `os.ENOENT` or any other error. -/
inductive FetchErr where
  | ENOENT : FetchErr
  | other : FetchErr
deriving DecidableEq, Repr

/-- The result of `fetcher.Fetch`: the file and its size, or an error. -/
inductive FetchResult where
  | ok : File → Int → FetchResult
  | err : FetchErr → FetchResult
deriving DecidableEq, Repr

/-- A value the JSON decoder stores in a `map[string]interface{}`. -/
inductive JsonValue where
  | null : JsonValue
  | bool : Bool → JsonValue
  | number : Bytes → JsonValue
  | string : Bytes → JsonValue
  | array : List JsonValue → JsonValue
  | object : List (Bytes × JsonValue) → JsonValue

/-- A decoded JSON object, the Go map `m`: the value of each key that is present. -/
abbrev JsonMap := Bytes → Option JsonValue

/-- The range of the request, `getRequestedRange(req)`, with the answer of its
method `IsWholeFile`; neither function is part of the source files. -/
structure RequestedRange where
  SkipBytes : Int
  LimitBytes : Int
  IsWholeFile : Bool

/-- What `handleGet` reads from the request: `auth.IsAuthorized(req)`,
`BlobFromUrlPath(req.URL.Path)` (nil for a malformed path),
`req.FormValue("via")` and `getRequestedRange(req)`. -/
structure Request where
  isOwner : Bool
  blobRef : Option BlobRef
  via : Bytes
  reqRange : RequestedRange

/-- The result of `conn.Hijack()`: whether the connection returned is nil, and
whether an error is returned. -/
structure HijackResult where
  closerNil : Bool
  err : Bool

/-- The surroundings of one run of the handler.  `fetch n br` is the answer of
`fetcher.Fetch(br)` when `n` calls went before; `jsonDecode` is the result of
`json.NewDecoder(file).Decode(&m)`, `none` for an error; `startTime` and
`endTime` are the readings of `time.Nanoseconds()` at the start and in the
deferred function; the connection accepts `writeLimit` bytes of the body, when
given, and fails after them. -/
structure Env where
  fetch : Nat → BlobRef → FetchResult
  jsonDecode : Stream → Option JsonMap
  startTime : Int
  endTime : Int
  writeLimit : Option Nat
  hijack : HijackResult

/-- The `http.ResponseWriter`: the status of `WriteHeader`, the headers set and
the body written. -/
structure Conn where
  status : Option Nat
  headers : List (Bytes × Bytes)
  body : Bytes
deriving DecidableEq, Repr

/-- The method `WriteHeader`; only the first call counts. -/
def Conn.WriteHeader (c : Conn) (code : Nat) : Conn :=
  if c.status.isNone then { c with status := some code } else c

/-- The method `SetHeader`. -/
def Conn.SetHeader (c : Conn) (k v : Bytes) : Conn :=
  { c with headers := c.headers ++ [(k, v)] }

/-- Writing to the connection; the first write sends status 200 when no
status was set. -/
def Conn.Write (c : Conn) (p : Bytes) : Conn :=
  { c with status := some (c.status.getD 200), body := c.body ++ p }

/-- The function `sendUnauthorized`. -/
def sendUnauthorized (conn : Conn) : Conn :=
  (conn.WriteHeader 401).Write (str "<h1>Unauthorized</h1>")

/-- Modelled from the spec: `httputil.BadRequestError` is not among the source
files; the bad-request outcome, status 400 with the message. -/
def BadRequestError (conn : Conn) (errorMessage : Bytes) : Conn :=
  (conn.WriteHeader 400).Write errorMessage

/-- Modelled from the spec: `httputil.ServerError` is not among the source
files; the server-error outcome, status 500. -/
def ServerError (conn : Conn) : Conn :=
  (conn.WriteHeader 500).Write (str "Server error")

/-- Go's `strings.Split(s, ",", -1)`. -/
def splitComma : Bytes → List Bytes
  | [] => [[]]
  | b :: tl =>
    if b = 0x2C then [] :: splitComma tl
    else
      match splitComma tl with
      | [] => [[b]]
      | x :: xs => (b :: x) :: xs

/-- The loop over the elements of `via`: the parsed references, or `none` at
the first element that `Parse` rejects. -/
def parseVia : List Bytes → List BlobRef → Option (List BlobRef)
  | [], viaBlobs => some viaBlobs
  | vs :: rest, viaBlobs =>
    match Parse vs with
    | none => none
    | some br => parseVia rest (viaBlobs ++ [br])

/-- The loop of `bytes.IndexAny`: the offset of the first rune of `s` that is
one of `cs`, or -1. -/
def indexAnyAux (cs : List Nat) : Nat → Nat → Bytes → Int
  | _, _, [] => -1
  | pos, skip + 1, _ :: tl => indexAnyAux cs (pos + 1) skip tl
  | pos, 0, b :: tl =>
    if (decodeRune (b :: tl)).1 ∈ cs then (pos : Int)
    else indexAnyAux cs (pos + 1) ((decodeRune (b :: tl)).2 - 1) tl

/-- Go's `bytes.IndexAny(s, chars)`. -/
def IndexAny (s chars : Bytes) : Int :=
  if chars.length > 0 then indexAnyAux (runes chars) 0 0 s else -1

/-- How a hop of the chain ends: the loop goes on, the handler sends
Unauthorized and returns, or a type assertion fails and the handler panics. -/
inductive Hop where
  | pass : Hop
  | unauthorized : Hop
  | panicked : Hop
deriving DecidableEq, Repr

/-- The `case 0` of the loop over the chain; `n` fetches went before. -/
def hopZero (env : Env) (fetchChain : List BlobRef) (br : BlobRef) (n : Nat) : Hop :=
  match env.fetch n br with
  | .err _ => .unauthorized
  | .ok file size =>
    if size > maxJsonSize then .unauthorized
    else
      match env.jsonDecode file.stream with
      | none => .unauthorized
      | some m =>
        match m (str "camliType") with
        | some (.string camliType) =>
          if camliType ≠ str "share" then .unauthorized
          else if fetchChain.length > 1 then
            match m (str "target") with
            | some (.string target) =>
              if (fetchChain.getD 1 ⟨[], []⟩).String ≠ target then .unauthorized else .pass
            | _ => .panicked
          else .pass
        | _ => .panicked

/-- The `default` case of the loop over the chain, hop `i`; `n` fetches went
before. -/
def hopInterior (env : Env) (fetchChain : List BlobRef) (i : Nat) (br : BlobRef) (n : Nat) :
    Hop :=
  match env.fetch n br with
  | .err _ => .unauthorized
  | .ok file _ =>
    let lr := LimitReader file.stream maxJsonSize
    let (slurpBytes, err) := ReadAll lr
    if err then .unauthorized
    else
      let saught := (fetchChain.getD (i + 1) ⟨[], []⟩).String
      if IndexAny slurpBytes saught = -1 then .unauthorized else .pass

/-- The loop `for i, br := range fetchChain`: its outcome and the arguments of
the fetches made, in order.  `fetched` lists the fetches made before. -/
def checkChain (env : Env) (fetchChain : List BlobRef) :
    Nat → List BlobRef → List BlobRef → Hop × List BlobRef
  | _, [], fetched => (.pass, fetched)
  | i, br :: rest, fetched =>
    if i = 0 then
      match hopZero env fetchChain br fetched.length with
      | .pass => checkChain env fetchChain (i + 1) rest (fetched ++ [br])
      | h => (h, fetched ++ [br])
    else if i = fetchChain.length - 1 then
      checkChain env fetchChain (i + 1) rest fetched
    else
      match hopInterior env fetchChain i br fetched.length with
      | .pass => checkChain env fetchChain (i + 1) rest (fetched ++ [br])
      | h => (h, fetched ++ [br])

/-- The deferred function of the non-owner path: the argument of
`time.Sleep`, when it is called. -/
def deferredSleep (env : Env) (viaPathOkay : Bool) : Option Int :=
  if !viaPathOkay then
    let sleep := i64 (fetchFailureDelayNs - i64 (env.endTime - env.startTime))
    if sleep > 0 then some sleep else none
  else none

/-- The function `isValidUtf8`. -/
def isValidUtf8 (s : Bytes) : Bool :=
  (runes s).all (fun rune => decide (rune ≠ 0xFFFD))

/-- Go's `bytes.HasPrefix`. -/
def HasPrefix (s p : Bytes) : Bool := decide (s.take p.length = p)

/-- The content type sniffed from the first bytes of a whole-file response. -/
def sniffContentType (header : Bytes) : Bytes :=
  if header.length ≥ 8 then
    if isValidUtf8 header then str "text/plain; charset=utf-8"
    else if HasPrefix header [0xff, 0xd8, 0xff, 0xe2] then str "image/jpeg"
    else if HasPrefix header [0x89, 0x50, 0x4e, 0x47, 0xd, 0xa, 0x1a, 0xa] then str "image/png"
    else str "application/octet-stream"
  else str "application/octet-stream"

/-- Go's `fmt.Sprintf("%d", n)` for a natural number, most significant digit first. -/
def decimalNat (n : Nat) : Bytes := (Nat.toDigits 10 n).map Char.toNat

/-- Go's `fmt.Sprintf("%d", n)`. -/
def decimal (n : Int) : Bytes :=
  if n < 0 then str "-" ++ decimalNat n.natAbs else decimalNat n.natAbs

/-- Go's `io.Copy(conn, input)`: the bytes that reach the connection, their
number and whether an error is returned. -/
def ioCopy (writeLimit : Option Nat) (input : Stream) : Bytes × Int × Bool :=
  match writeLimit with
  | some k =>
    if k < input.data.length then (input.data.take k, (k : Int), true)
    else (input.data, (input.data.length : Int), input.err)
  | none => (input.data, (input.data.length : Int), input.err)

/-- What one run of `handleGet` does: the response, the arguments of the calls
of `fetcher.Fetch` in order, the final value of `viaPathOkay`, the argument of
`time.Sleep` when the deferred function calls it, whether `Close` was called
on the hijacked connection, and whether the handler ended in a panic. -/
structure Result where
  conn : Conn
  fetched : List BlobRef
  viaPathOkay : Bool
  slept : Option Int
  connClosed : Bool
  panicked : Bool
deriving DecidableEq, Repr

/-- The closure `killConnection`: whether it closes the connection, and
whether it panics on a nil connection. -/
def killConnection (h : HijackResult) : Bool × Bool :=
  if h.err then
    if h.closerNil then (false, true) else (true, false)
  else (false, false)

/-- The handler once the target is fetched (lines 165 to 240): the response,
whether `Close` was called on the hijacked connection, and whether the
handler ended in a panic. -/
def sendFile (env : Env) (reqRange : RequestedRange) (file : File) (size : Int) (conn : Conn) :
    Conn × Bool × Bool :=
  let seeked : Option Stream :=
    if reqRange.SkipBytes ≠ 0 then file.Seek reqRange.SkipBytes else some file.stream
  match seeked with
  | none => (ServerError conn, false, false)
  | some fileStream =>
    let input : Stream :=
      if reqRange.LimitBytes ≠ -1 then LimitReader fileStream reqRange.LimitBytes
      else fileStream
    let remainBytes : Int :=
      if reqRange.LimitBytes ≠ -1 ∧ reqRange.LimitBytes < i64 (size - reqRange.SkipBytes)
      then reqRange.LimitBytes else i64 (size - reqRange.SkipBytes)
    let contentType : Bytes :=
      if reqRange.IsWholeFile then sniffContentType (input.data.take 1024)
      else str "application/octet-stream"
    let conn := conn.SetHeader (str "Content-Type") contentType
    let conn :=
      if !reqRange.IsWholeFile then
        (conn.SetHeader (str "Content-Range")
          (str "bytes " ++ decimal reqRange.SkipBytes ++ str "-"
            ++ decimal (i64 (reqRange.SkipBytes + remainBytes)) ++ str "/"
            ++ decimal size)).WriteHeader 206
      else conn
    let copied := ioCopy env.writeLimit input
    let conn := if copied.1 = [] then conn else conn.Write copied.1
    if copied.2.2 ∨ copied.2.1 ≠ remainBytes then
      (conn, killConnection env.hijack)
    else (conn, false, false)

/-- The handler from the fetch of the target on (line 152 to the end);
`fetched` lists the fetches of the chain check. -/
def serveBlob (env : Env) (req : Request) (blobRef : BlobRef) (conn : Conn)
    (fetched : List BlobRef) : Result :=
  let out : Conn × Bool × Bool :=
    match env.fetch fetched.length blobRef with
    | .err .ENOENT => ((conn.WriteHeader 404).Write (str "Object not found."), false, false)
    | .err .other => (ServerError conn, false, false)
    | .ok file size => sendFile env req.reqRange file size conn
  ⟨out.1, fetched ++ [blobRef], false, none, out.2.1, out.2.2⟩

/-- The function `handleGet`. -/
def handleGet (env : Env) (req : Request) : Result :=
  let conn : Conn := ⟨none, [], []⟩
  match req.blobRef with
  | none => ⟨BadRequestError conn (str "Malformed GET URL."), [], false, none, false, false⟩
  | some blobRef =>
    if !req.isOwner then
      let parsed : Option (List BlobRef) :=
        if req.via ≠ [] then parseVia (splitComma req.via) [] else some []
      match parsed with
      | none =>
        ⟨BadRequestError conn (str "Malformed blobref in via param"), [], false,
          deferredSleep env false, false, false⟩
      | some viaBlobs =>
        let fetchChain := viaBlobs ++ [blobRef]
        match checkChain env fetchChain 0 fetchChain [] with
        | (.unauthorized, fetched) =>
          ⟨sendUnauthorized conn, fetched, false, deferredSleep env false, false, false⟩
        | (.panicked, fetched) =>
          ⟨conn, fetched, false, deferredSleep env false, false, true⟩
        | (.pass, fetched) =>
          let r := serveBlob env req blobRef conn fetched
          { r with viaPathOkay := true, slept := deferredSleep env true }
    else serveBlob env req blobRef conn []

/-! ## Notions the claims are stated with -/

/-- A predicate on runes that only ASCII runes satisfy. -/
def AsciiPred (p : Nat → Bool) : Prop := ∀ r, p r = true → r < 0x80

/-- The class `[a-z0-9]`. -/
def lowerAlnum (b : Nat) : Prop := (0x61 ≤ b ∧ b ≤ 0x7A) ∨ (0x30 ≤ b ∧ b ≤ 0x39)

/-- The class `[a-f0-9]`. -/
def lowerHex (b : Nat) : Prop := (0x61 ≤ b ∧ b ≤ 0x66) ∨ (0x30 ≤ b ∧ b ≤ 0x39)

instance (b : Nat) : Decidable (lowerAlnum b) := by unfold lowerAlnum; infer_instance

instance (b : Nat) : Decidable (lowerHex b) := by unfold lowerHex; infer_instance

/-- The syntax `scheme-digest` that `kBlobRefPattern` describes. -/
def RefSyntax (s scheme digest : Bytes) : Prop :=
  s = scheme ++ 0x2D :: digest ∧ scheme ≠ [] ∧ (∀ b ∈ scheme, lowerAlnum b) ∧
    digest ≠ [] ∧ (∀ b ∈ digest, lowerHex b)

/-- The strings of the claim on `Parse`: `scheme-digest` with a scheme over
`[a-z0-9]`, a digest over `[a-f0-9]`, both non-empty, and the digest of the
length a known scheme expects. -/
def ValidRef (s scheme digest : Bytes) : Prop :=
  s = scheme ++ str "-" ++ digest ∧
    scheme ≠ [] ∧ (∀ b ∈ scheme, lowerAlnum b) ∧
    digest ≠ [] ∧ (∀ b ∈ digest, lowerHex b) ∧
    (scheme = str "sha1" → digest.length = 40) ∧
    (scheme = str "md5" → digest.length = 32)

/-- The normalisation of the claim on `HashMatches`: ASCII upper-case letters
become lower-case letters. -/
def toLower (s : Bytes) : Bytes :=
  s.map (fun b => if 0x41 ≤ b ∧ b ≤ 0x5A then b + 0x20 else b)

/-- A pattern a caller of `FromPattern` may supply, `^([a-z0-9]+)-([a-fA-F0-9]+)$`:
it admits digests in upper case. -/
def anyCaseRefPattern : Regexp :=
  .cat .bot
    (.cat (.group 1 (.plus (.cls [(0x61, 0x7A), (0x30, 0x39)])))
      (.cat (.char 0x2D)
        (.cat (.group 2 (.plus (.cls [(0x61, 0x66), (0x41, 0x46), (0x30, 0x39)]))) .eot)))

/-! ## Concrete requests and blob stores used in the examples -/

/-- A Go map given by its entries. -/
def jsonOf (entries : List (Bytes × JsonValue)) : JsonMap := fun k => entries.lookup k

/-- A decoder that agrees with `encoding/json` on the four texts of the
examples, and reports an error for every other text. -/
def exampleDecode (s : Stream) : Option JsonMap :=
  if s.data = str "\x7b\"camliType\":\"share\"\x7d" then
    some (jsonOf [(str "camliType", .string (str "share"))])
  else if s.data = str ("\x7b\"camliType\":\"share\","
      ++ "\"target\":\"sha1-2222222222222222222222222222222222222222\"\x7d") then
    some (jsonOf [(str "camliType", .string (str "share")),
      (str "target", .string (str "sha1-2222222222222222222222222222222222222222"))])
  else if s.data = str "\x7b\"target\":\"sha1-9999999999999999999999999999999999999999\"\x7d" then
    some (jsonOf [(str "target", .string (str "sha1-9999999999999999999999999999999999999999"))])
  else if s.data = str "\x7b\x7d" then some (jsonOf [])
  else none

/-- A fetcher over a fixed store: each blob with its content, its size the
length of the content; a reference that is not in the store gives `ENOENT`. -/
def storeFetch (store : List (BlobRef × Bytes)) : Nat → BlobRef → FetchResult :=
  fun _ br =>
    match store.lookup br with
    | some data => .ok ⟨data, false, false⟩ (data.length : Int)
    | none => .err .ENOENT

/-- The surroundings of the examples: a store, the clock at 1000 ns and then
at 6000 ns, a connection that takes every byte. -/
def storeEnv (store : List (BlobRef × Bytes)) : Env :=
  { fetch := storeFetch store
    jsonDecode := exampleDecode
    startTime := 1000
    endTime := 6000
    writeLimit := none
    hijack := ⟨false, false⟩ }

/-- Three references of the examples. -/
def ref1 : BlobRef := ⟨str "sha1", str "1111111111111111111111111111111111111111"⟩

/-- The second reference. -/
def ref2 : BlobRef := ⟨str "sha1", str "2222222222222222222222222222222222222222"⟩

/-- The third reference. -/
def ref3 : BlobRef := ⟨str "sha1", str "3333333333333333333333333333333333333333"⟩

/-- A share blob that names no target. -/
def shareText : Bytes := str "\x7b\"camliType\":\"share\"\x7d"

/-- A share blob whose target is `ref2`. -/
def shareToRef2 : Bytes :=
  str ("\x7b\"camliType\":\"share\","
    ++ "\"target\":\"sha1-2222222222222222222222222222222222222222\"\x7d")

/-- A request for the whole blob `br` by somebody who is not the owner. -/
def anonGet (br : BlobRef) (via : Bytes) : Request :=
  { isOwner := false, blobRef := some br, via := via, reqRange := ⟨0, -1, true⟩ }

/-- The `via` parameter naming `ref1`. -/
def viaRef1 : Bytes := str "sha1-1111111111111111111111111111111111111111"

/-- The `via` parameter naming `ref1` and `ref2`. -/
def viaRef12 : Bytes :=
  str ("sha1-1111111111111111111111111111111111111111,"
    ++ "sha1-2222222222222222222222222222222222222222")

/-- A blob with a `target` and no `camliType`. -/
def targetOnlyText : Bytes :=
  str "\x7b\"target\":\"sha1-9999999999999999999999999999999999999999\"\x7d"

/-- A request for the bytes 10 to 14 of `ref2` through the share `ref1`. -/
def rangedGet : Request :=
  { isOwner := false, blobRef := some ref2, via := viaRef1, reqRange := ⟨10, 5, false⟩ }

/-- A store with the share `ref1` and a blob `ref2` of the hundred bytes 0 to 99. -/
def rangedEnv : Env := storeEnv [(ref1, shareToRef2), (ref2, List.range 100)]

/-- An interior blob that names `ref3` only after 64 KiB of the letter `Z`. -/
@[irreducible]
def bigBlob : Bytes := List.replicate 65536 0x5A ++ ref3.String

/-- A store with the share `ref1`, the interior blob `bigBlob` as `ref2`, and
the target `ref3`. -/
def bigEnv : Env := storeEnv [(ref1, shareToRef2), (ref2, bigBlob), (ref3, str "secret")]

/-! ## clients/go/camput/camput.go: the uploader -/

/-- An `os.Error`, by its message. -/
abbrev Error := Bytes

/-- The error of a `Read` that fails; the model of a file records only that
the `Read` fails. -/
def errRead : Error := str "read error"

/-- The error of `os.Lstat` for a name that the directory does not hold. -/
def errNotExist : Error := str "no such file or directory"

/-- The answers of `os.Lstat` that `UploadFile` looks at. -/
structure FileInfo where
  IsRegular : Bool
  IsSymlink : Bool
  IsDirectory : Bool
  Size : Int
deriving DecidableEq, Repr

/-- The struct `client.UploadHandle`. -/
structure UploadHandle where
  BlobRef : Option BlobRef
  Size : Int
  Contents : File
deriving DecidableEq, Repr

/-- The struct `client.PutResult`, as far as the code uses it. -/
structure PutResult where
  BlobRef : BlobRef
  Size : Int
deriving DecidableEq, Repr

/-- The struct `schema.ContentPart`. -/
structure ContentPart where
  BlobRef : BlobRef
  Size : Int
deriving DecidableEq, Repr

/-- A schema map, the Go `map[string]interface{}` of the schema package, by
its entries. -/
abbrev SchemaMap := List (Bytes × JsonValue)

/-- The packages `camli/client` and `camli/schema`, which are not among the
source files, as the uploader uses them: `upload` is `(*Client).Upload`;
`staticSetMap refs` is `ss.Map()` of a static set after the calls `ss.Add(ref)`
for the references of `refs` in this order; the `Populate` functions give the
map they leave behind, or their error. -/
structure UploadEnv where
  upload : UploadHandle → Except Error PutResult
  NewCommonFileMap : Bytes → FileInfo → SchemaMap
  PopulateRegularFileMap : SchemaMap → FileInfo → List ContentPart → Except Error SchemaMap
  PopulateSymlinkMap : SchemaMap → Bytes → Except Error SchemaMap
  PopulateDirectoryMap : SchemaMap → BlobRef → SchemaMap
  staticSetMap : List BlobRef → SchemaMap
  MapToCamliJson : SchemaMap → Except Error Bytes
  NewUploadHandleFromString : Bytes → UploadHandle
  UnimplementedError : Error

/-- What the operating system answers about a path: the result of `os.Lstat`,
the result of `os.Open`, the error of `Readdirnames` if it fails, and the
entries of a directory, in the order in which `Readdirnames` lists them, each
with what the system answers about it. -/
inductive FsNode where
  | mk (lstat : Except Error FileInfo) (opened : Except Error File) (readdirErr : Option Error)
      (entries : List (Bytes × FsNode)) : FsNode

/-- The result of an upload, and the handles given to `up.Upload` on the way,
in order. -/
abbrev Outcome := Except Error PutResult × List UploadHandle

/-- Go's `sort.SortStrings`: the strings in increasing order, compared byte by
byte as Go compares strings. -/
def SortStrings (a : List Bytes) : List Bytes := a.insertionSort (· ≤ ·)

/-- The method `(*Uploader).UploadFileBlob`, given the result of `os.Open`. -/
def UploadFileBlob (env : UploadEnv) (opened : Except Error File) : Outcome :=
  match opened with
  | .error err => (.error err, [])
  | .ok file =>
    let details := blobDetails ⟨file, 0⟩
    if details.2.2 then (.error errRead, [])
    else
      let handle : UploadHandle := ⟨details.1, details.2.1, file⟩
      (env.upload handle, [handle])

/-- The method `(*Uploader).UploadMap`. -/
def UploadMap (env : UploadEnv) (m : SchemaMap) : Outcome :=
  match env.MapToCamliJson m with
  | .error err => (.error err, [])
  | .ok json =>
    let handle := env.NewUploadHandleFromString json
    (env.upload handle, [handle])

/-- The loop `for _, dirEntName := range dirNames` of `UploadFile`: `child`
is the outcome of `up.UploadFile(filename + "/" + dirEntName)`, `ss` the
references added to the static set so far, `uploaded` the handles uploaded so
far.  The result is the static set after the loop, or the error of the first
child that fails. -/
def uploadEntries (child : Bytes → Outcome) :
    List Bytes → List BlobRef → List UploadHandle → Except Error (List BlobRef) × List UploadHandle
  | [], ss, uploaded => (.ok ss, uploaded)
  | dirEntName :: rest, ss, uploaded =>
    match child dirEntName with
    | (.error err, l) => (.error err, uploaded ++ l)
    | (.ok pr, l) => uploadEntries child rest (ss ++ [pr.BlobRef]) (uploaded ++ l)

/-- The outcome for the entry `name` among the outcomes of the entries of a
directory; a name that the directory does not hold fails in `os.Lstat`. -/
def childOutcome (children : List (Bytes × Outcome)) (name : Bytes) : Outcome :=
  (children.lookup name).getD (.error errNotExist, [])

mutual

/-- The method `(*Uploader).UploadFile` on the path `filename`, about which
the operating system answers as the node says. -/
def UploadFile (env : UploadEnv) : FsNode → Bytes → Outcome
  | .mk lstat opened readdirErr entries, filename =>
    match lstat with
    | .error err => (.error err, [])
    | .ok fi =>
      let m := env.NewCommonFileMap filename fi
      if fi.IsRegular then
        match UploadFileBlob env opened with
        | (.error err, l) => (.error err, l)
        | (.ok blobpr, l) =>
          let parts : List ContentPart := [⟨blobpr.BlobRef, blobpr.Size⟩]
          match env.PopulateRegularFileMap m fi parts with
          | .error err => (.error err, l)
          | .ok m => ((UploadMap env m).1, l ++ (UploadMap env m).2)
      else if fi.IsSymlink then
        match env.PopulateSymlinkMap m filename with
        | .error err => (.error err, [])
        | .ok m => UploadMap env m
      else if fi.IsDirectory then
        match opened with
        | .error err => (.error err, [])
        | .ok _ =>
          match readdirErr with
          | some err => (.error err, [])
          | none =>
            let dirNames := SortStrings (entries.map Prod.fst)
            let children := uploadChildren env entries filename
            match uploadEntries (childOutcome children) dirNames [] [] with
            | (.error err, l) => (.error err, l)
            | (.ok ss, l) =>
              match UploadMap env (env.staticSetMap ss) with
              | (.error err, l2) => (.error err, l ++ l2)
              | (.ok sspr, l2) =>
                ((UploadMap env (env.PopulateDirectoryMap m sspr.BlobRef)).1,
                  l ++ l2 ++ (UploadMap env (env.PopulateDirectoryMap m sspr.BlobRef)).2)
      else (.error env.UnimplementedError, [])

/-- The outcome of `up.UploadFile(filename + "/" + name)` for each entry of a
directory. -/
def uploadChildren (env : UploadEnv) : List (Bytes × FsNode) → Bytes → List (Bytes × Outcome)
  | [], _ => []
  | (name, node) :: rest, filename =>
    (name, UploadFile env node (filename ++ str "/" ++ name)) :: uploadChildren env rest filename

end

/-! ## Concrete surroundings of the examples on killing the connection -/

/-- A request of the owner for the whole blob `br`. -/
def ownerGet (br : BlobRef) : Request :=
  { isOwner := true, blobRef := some br, via := [], reqRange := ⟨0, -1, true⟩ }

/-- A store with the blob `ref3`, a connection that fails after three bytes
of the body, and a `Hijack` that succeeds with a usable connection. -/
def shortWriteEnv : Env :=
  { fetch := storeFetch [(ref3, str "secret")]
    jsonDecode := exampleDecode
    startTime := 1000
    endTime := 6000
    writeLimit := some 3
    hijack := ⟨false, false⟩ }

/-- A fetcher that reports ten bytes for the blob `ref3` of six bytes, with a
connection that takes every byte and a `Hijack` that succeeds. -/
def wrongSizeEnv : Env :=
  { fetch := fun _ _ => .ok ⟨str "secret", false, false⟩ 10
    jsonDecode := exampleDecode
    startTime := 1000
    endTime := 6000
    writeLimit := none
    hijack := ⟨false, false⟩ }

/-! ## A concrete uploader and directory for the examples -/

/-- The text of a value in the stand-in for `schema.MapToCamliJson`. -/
def exampleText : JsonValue → Bytes
  | .string s => s
  | .array items =>
    items.flatMap (fun v =>
      match v with
      | .string s => s ++ str ","
      | _ => [])
  | _ => []

/-- A stand-in for the packages `camli/client` and `camli/schema` in the
examples: the upload of a handle succeeds with the reference of the handle,
the text of a map lists its keys and values, and the handle of a text carries
its SHA-1 reference. -/
def exampleUploadEnv : UploadEnv :=
  { upload := fun h =>
      match h.BlobRef with
      | some br => .ok ⟨br, h.Size⟩
      | none => .error (str "no blobref")
    NewCommonFileMap := fun filename _ => [(str "fileName", .string filename)]
    PopulateRegularFileMap := fun m _ parts =>
      .ok (m ++ [(str "camliType", .string (str "file")),
        (str "contentParts", .array (parts.map (fun p => .string p.BlobRef.String)))])
    PopulateSymlinkMap := fun m _ => .ok (m ++ [(str "camliType", .string (str "symlink"))])
    PopulateDirectoryMap := fun m ref =>
      m ++ [(str "camliType", .string (str "directory")), (str "entries", .string ref.String)]
    staticSetMap := fun refs =>
      [(str "camliType", .string (str "static-set")),
        (str "members", .array (refs.map (fun r => .string r.String)))]
    MapToCamliJson := fun m =>
      .ok (m.flatMap (fun kv => kv.1 ++ str "=" ++ exampleText kv.2 ++ str ";"))
    NewUploadHandleFromString := fun json =>
      ⟨some (FromHash (str "sha1") (sha1New.Write json)), (json.length : Int),
        ⟨json, false, false⟩⟩
    UnimplementedError := str "Unimplemented" }

/-- A regular file with the given content. -/
def exampleFile (content : Bytes) : FsNode :=
  .mk (.ok ⟨true, false, false, (content.length : Int)⟩) (.ok ⟨content, false, false⟩) none []

/-- The entries of the example directory: the regular files `a.txt` and
`b.txt`; about any other name `os.Lstat` fails. -/
def exampleChild (name : Bytes) : FsNode :=
  if name = str "a.txt" then exampleFile (str "alpha")
  else if name = str "b.txt" then exampleFile (str "beta")
  else .mk (.error errNotExist) (.error errNotExist) none []

/-- The result of the upload of an entry of the example directory `dir`. -/
def exampleRefs (name : Bytes) : PutResult :=
  match (UploadFile exampleUploadEnv (exampleChild name) (str "dir" ++ str "/" ++ name)).1 with
  | .ok pr => pr
  | .error _ => ⟨⟨[], []⟩, 0⟩

set_option maxRecDepth 1000000

/-! ## Facts about the UTF-8 decoder and the matcher -/

theorem decodeRune_ascii (b : Nat) (tl : Bytes) (h : b < 0x80) :
    decodeRune (b :: tl) = (b, 1) := by
  simp [decodeRune, h]

theorem decodeRune_ge (b : Nat) (tl : Bytes) (h : ¬ b < 0x80) :
    0x80 ≤ (decodeRune (b :: tl)).1 := by
  unfold decodeRune
  simp only [h, if_false]
  repeat' split
  all_goals simp only [RuneError]
  all_goals omega

theorem stepRune_ascii {p : Nat → Bool} (hp : AsciiPred p) (pos b : Nat) (tl : Bytes)
    (caps : List (Nat × Bytes)) :
    stepRune p ⟨pos, b :: tl, caps⟩ = if p b then [⟨pos + 1, tl, caps⟩] else [] := by
  by_cases hb : b < 0x80
  · simp [stepRune, decodeRune_ascii b tl hb]
  · have h1 : p b = false := by
      cases hpb : p b
      · rfl
      · exact absurd (hp b hpb) hb
    have h2 : p (decodeRune (b :: tl)).1 = false := by
      cases hpr : p (decodeRune (b :: tl)).1
      · rfl
      · have := hp _ hpr
        have := decodeRune_ge b tl hb
        omega
    simp [stepRune, h1, h2]

theorem mem_plusLoop_stepRune {p : Nat → Bool} (hp : AsciiPred p) (t : MState) :
    ∀ (n : Nat) (s : MState), s.rest.length < n →
      (t ∈ plusLoop (stepRune p) n s ↔
        ∃ k, 1 ≤ k ∧ k ≤ s.rest.length ∧ (∀ b ∈ s.rest.take k, p b = true) ∧
          t = ⟨s.pos + k, s.rest.drop k, s.caps⟩) := by
  intro n
  induction n with
  | zero => intro s h; omega
  | succ n ih =>
    intro s h
    obtain ⟨pos, rest, caps⟩ := s
    cases rest with
    | nil =>
      simp [plusLoop, stepRune]
      intro k hk hk0
      omega
    | cons b tl =>
      simp only [plusLoop, stepRune_ascii hp]
      by_cases hb : p b = true
      · simp only [hb, if_true, List.flatMap_cons, List.flatMap_nil, List.append_nil,
          List.length_cons, Nat.lt_succ_self, List.mem_append, List.mem_singleton]
        have hlen : (MState.mk (pos + 1) tl caps).rest.length < n := by
          simp only [List.length_cons] at h; simpa using (by omega : tl.length < n)
        rw [ih ⟨pos + 1, tl, caps⟩ hlen]
        constructor
        · rintro (⟨k, hk1, hk2, hk3, rfl⟩ | rfl)
          · refine ⟨k + 1, by omega, by simp at hk2 ⊢; omega, ?_, ?_⟩
            · intro x hx
              simp only [List.take_succ_cons, List.mem_cons] at hx
              rcases hx with rfl | hx
              · exact hb
              · exact hk3 x hx
            · simp [Nat.add_assoc, Nat.add_comm 1 k]
          · exact ⟨1, le_refl _, by simp, by simp [hb], by simp⟩
        · rintro ⟨k, hk1, hk2, hk3, rfl⟩
          obtain ⟨j, rfl⟩ : ∃ j, k = j + 1 := ⟨k - 1, by omega⟩
          cases j with
          | zero => right; simp
          | succ j =>
            left
            refine ⟨j + 1, by omega, by simp at hk2 ⊢; omega, ?_, ?_⟩
            · intro x hx
              apply hk3
              simp only [List.take_succ_cons, List.mem_cons]
              right; simpa using hx
            · simp [Nat.add_assoc, Nat.add_comm 1]
      · simp only [hb]
        simp only [Bool.false_eq_true, if_false, List.flatMap_nil, List.not_mem_nil, false_iff]
        rintro ⟨k, hk1, _, hk3, _⟩
        apply hb
        apply hk3
        obtain ⟨j, rfl⟩ : ∃ j, k = j + 1 := ⟨k - 1, by omega⟩
        simp


theorem asciiPred_inClass (rs : List (Nat × Nat)) (h : ∀ lh ∈ rs, lh.2 < 0x80) :
    AsciiPred (inClass rs) := by
  intro r hr
  simp only [inClass, List.any_eq_true, Bool.and_eq_true, decide_eq_true_eq] at hr
  obtain ⟨lh, hmem, _, h2⟩ := hr
  have := h lh hmem
  omega

theorem mem_run_group_plus_cls (i : Nat) (rs : List (Nat × Nat))
    (h : ∀ lh ∈ rs, lh.2 < 0x80) (s t : MState) :
    t ∈ run (.group i (.plus (.cls rs))) s ↔
      ∃ k, 1 ≤ k ∧ k ≤ s.rest.length ∧ (∀ b ∈ s.rest.take k, inClass rs b = true) ∧
        t = ⟨s.pos + k, s.rest.drop k, (i, s.rest.take k) :: s.caps⟩ := by
  have hrun : run (.cls rs) = stepRune (inClass rs) := by funext s; simp [run]
  simp only [run, List.mem_map, hrun]
  constructor
  · rintro ⟨u, hu, rfl⟩
    rw [mem_plusLoop_stepRune (asciiPred_inClass rs h) u _ s (Nat.lt_succ_self _)] at hu
    obtain ⟨k, hk1, hk2, hk3, rfl⟩ := hu
    exact ⟨k, hk1, hk2, hk3, by simp⟩
  · rintro ⟨k, hk1, hk2, hk3, rfl⟩
    refine ⟨⟨s.pos + k, s.rest.drop k, s.caps⟩, ?_, by simp⟩
    rw [mem_plusLoop_stepRune (asciiPred_inClass rs h) _ _ s (Nat.lt_succ_self _)]
    exact ⟨k, hk1, hk2, hk3, rfl⟩

theorem mem_run_char (c : Nat) (hc : c < 0x80) (s t : MState) :
    t ∈ run (.char c) s ↔ ∃ tl, s.rest = c :: tl ∧ t = ⟨s.pos + 1, tl, s.caps⟩ := by
  have hp : AsciiPred (fun r => decide (r = c)) := by
    intro r hr
    simp only [decide_eq_true_eq] at hr
    omega
  obtain ⟨pos, rest, caps⟩ := s
  cases rest with
  | nil => simp [run, stepRune]
  | cons b tl =>
    simp only [run, stepRune_ascii hp]
    by_cases hb : b = c
    · subst hb; simp [eq_comm]
    · simp [hb]

theorem mem_run_eot (s t : MState) : t ∈ run .eot s ↔ s.rest = [] ∧ t = s := by
  by_cases h : s.rest = []
  · simp [run, h]
  · simp [run, h]

theorem run_cat (a b : Regexp) (s : MState) :
    run (.cat a b) s = (run a s).flatMap (run b) := rfl

theorem run_bot (s : MState) : run .bot s = if s.pos = 0 then [s] else [] := rfl

theorem inClass_alnum (b : Nat) : inClass [(0x61, 0x7A), (0x30, 0x39)] b = true ↔ lowerAlnum b := by
  simp [inClass, lowerAlnum]

theorem inClass_hex (b : Nat) : inClass [(0x61, 0x66), (0x30, 0x39)] b = true ↔ lowerHex b := by
  simp [inClass, lowerHex]

theorem mem_run_kBlobRefPattern (s : Bytes) (t : MState) :
    t ∈ run kBlobRefPattern ⟨0, s, []⟩ ↔
      ∃ scheme digest, RefSyntax s scheme digest ∧
        t = ⟨s.length, [], [(2, digest), (1, scheme)]⟩ := by
  have h1 : ∀ lh ∈ [((0x61 : Nat), (0x7A : Nat)), (0x30, 0x39)], lh.2 < 0x80 := by
    intro lh hlh; simp at hlh; rcases hlh with rfl | rfl <;> simp
  have h2 : ∀ lh ∈ [((0x61 : Nat), (0x66 : Nat)), (0x30, 0x39)], lh.2 < 0x80 := by
    intro lh hlh; simp at hlh; rcases hlh with rfl | rfl <;> simp
  unfold kBlobRefPattern
  rw [run_cat, run_bot]
  simp only [if_true, List.flatMap_cons, List.flatMap_nil, List.append_nil]
  rw [run_cat]
  simp only [List.mem_flatMap]
  constructor
  · rintro ⟨a, ha, hb⟩
    rw [mem_run_group_plus_cls 1 _ h1] at ha
    obtain ⟨k1, hk1, hk1', hc1, rfl⟩ := ha
    rw [run_cat] at hb
    simp only [List.mem_flatMap] at hb
    obtain ⟨b, hb, hc⟩ := hb
    rw [mem_run_char _ (by norm_num)] at hb
    obtain ⟨tl, htl, rfl⟩ := hb
    rw [run_cat] at hc
    simp only [List.mem_flatMap] at hc
    obtain ⟨c, hc, hd⟩ := hc
    rw [mem_run_group_plus_cls 2 _ h2] at hc
    obtain ⟨k2, hk2, hk2', hc2, rfl⟩ := hc
    rw [mem_run_eot] at hd
    obtain ⟨hd1, rfl⟩ := hd
    simp only at htl hk1' hc1 hk2' hc2 hd1
    have hk2len : tl.length ≤ k2 := by
      have := congrArg List.length hd1
      simp at this; omega
    have htake : tl.take k2 = tl := List.take_of_length_le hk2len
    have hs : s = s.take k1 ++ 0x2D :: tl := by
      conv_lhs => rw [← List.take_append_drop k1 s, htl]
    refine ⟨s.take k1, tl, ⟨hs, ?_, ?_, ?_, ?_⟩, ?_⟩
    · intro h
      have := congrArg List.length h
      simp only [List.length_take, List.length_nil] at this
      omega
    · intro b hb; exact (inClass_alnum b).1 (hc1 b hb)
    · intro h; subst h; simp at hk2'; omega
    · intro b hb; rw [← htake] at hb; exact (inClass_hex b).1 (hc2 b hb)
    · have hlen : s.length = k1 + 1 + k2 := by
        have e1 := congrArg List.length hs
        simp at e1
        omega
      simp [hd1, htake, hlen]
  · rintro ⟨scheme, digest, ⟨hs, hne1, hc1, hne2, hc2⟩, rfl⟩
    subst hs
    refine ⟨⟨scheme.length, 0x2D :: digest, [(1, scheme)]⟩, ?_, ?_⟩
    · rw [mem_run_group_plus_cls 1 _ h1]
      refine ⟨scheme.length, ?_, by simp, ?_, by simp⟩
      · exact List.length_pos.2 hne1
      · intro b hb
        simp at hb
        exact (inClass_alnum b).2 (hc1 b hb)
    · rw [run_cat]
      simp only [List.mem_flatMap]
      refine ⟨⟨scheme.length + 1, digest, [(1, scheme)]⟩, ?_, ?_⟩
      · rw [mem_run_char _ (by norm_num)]
        exact ⟨digest, rfl, rfl⟩
      · rw [run_cat]
        simp only [List.mem_flatMap]
        refine ⟨⟨scheme.length + 1 + digest.length, [], [(2, digest), (1, scheme)]⟩, ?_, ?_⟩
        · rw [mem_run_group_plus_cls 2 _ h2]
          refine ⟨digest.length, List.length_pos.2 hne2, by simp, ?_, by simp⟩
          intro b hb
          simp at hb
          exact (inClass_hex b).2 (hc2 b hb)
        · rw [mem_run_eot]
          simp [Nat.add_assoc]
          omega


theorem split_unique (c : Nat) :
    ∀ (a a2 d d2 : Bytes), a ++ c :: d = a2 ++ c :: d2 → c ∉ a → c ∉ a2 → a = a2 ∧ d = d2 := by
  intro a
  induction a with
  | nil =>
    intro a2 d d2 h _ h2
    cases a2 with
    | nil => simpa using h
    | cons x xs =>
      simp only [List.nil_append, List.cons_append, List.cons.injEq] at h
      exact absurd (by simp [h.1]) h2
  | cons y ys ih =>
    intro a2 d d2 h h1 h2
    cases a2 with
    | nil =>
      simp only [List.nil_append, List.cons_append, List.cons.injEq] at h
      exact absurd (by simp [h.1]) h1
    | cons x xs =>
      simp only [List.cons_append, List.cons.injEq] at h
      have := ih xs d d2 h.2 (fun hm => h1 (List.mem_cons_of_mem _ hm))
        (fun hm => h2 (List.mem_cons_of_mem _ hm))
      simp [h.1, this.1, this.2]

theorem refSyntax_unique {s a d a2 d2 : Bytes} (h : RefSyntax s a d) (h2 : RefSyntax s a2 d2) :
    a = a2 ∧ d = d2 := by
  obtain ⟨e1, _, c1, _, _⟩ := h
  obtain ⟨e2, _, c2, _, _⟩ := h2
  have n1 : (0x2D : Nat) ∉ a := fun hm => by
    have := c1 _ hm; simp [lowerAlnum] at this
  have n2 : (0x2D : Nat) ∉ a2 := fun hm => by
    have := c2 _ hm; simp [lowerAlnum] at this
  exact split_unique 0x2D a a2 d d2 (e1 ▸ e2) n1 n2

theorem head?_of_forall_eq {α : Type} {l : List α} {x : α} (hne : l ≠ [])
    (h : ∀ t ∈ l, t = x) : l.head? = some x := by
  cases l with
  | nil => exact absurd rfl hne
  | cons y ys => simp [h y (List.mem_cons_self _ _)]

theorem run_kBlobRefPattern_pos (pos : Nat) (h : pos ≠ 0) (rest : Bytes)
    (caps : List (Nat × Bytes)) : run kBlobRefPattern ⟨pos, rest, caps⟩ = [] := by
  simp [kBlobRefPattern, run_cat, run_bot, h]

theorem searchFrom_kBlobRefPattern_pos :
    ∀ (rest : Bytes) (pos skip : Nat), pos ≠ 0 →
      searchFrom kBlobRefPattern pos skip rest = none := by
  intro rest
  induction rest with
  | nil => intro pos skip h; simp [searchFrom, run_kBlobRefPattern_pos pos h]
  | cons b tl ih =>
    intro pos skip h
    cases skip with
    | zero =>
      simp only [searchFrom, run_kBlobRefPattern_pos pos h, List.head?_nil]
      exact ih _ _ (Nat.succ_ne_zero _)
    | succ k =>
      simp only [searchFrom]
      exact ih _ _ (Nat.succ_ne_zero _)

theorem searchFrom_kBlobRefPattern_zero (s : Bytes) :
    searchFrom kBlobRefPattern 0 0 s =
      ((run kBlobRefPattern ⟨0, s, []⟩).head?).map (fun m => (0, m)) := by
  cases s with
  | nil => simp [searchFrom]
  | cons b tl =>
    simp only [searchFrom]
    cases h : (run kBlobRefPattern ⟨0, b :: tl, []⟩).head? with
    | none => simpa using searchFrom_kBlobRefPattern_pos tl _ _ (Nat.succ_ne_zero _)
    | some m => simp

theorem findStringSubmatch_of_refSyntax {s scheme digest : Bytes}
    (h : RefSyntax s scheme digest) :
    FindStringSubmatch kBlobRefPattern s = [s, scheme, digest] := by
  have hmem : ⟨s.length, [], [(2, digest), (1, scheme)]⟩ ∈ run kBlobRefPattern ⟨0, s, []⟩ :=
    (mem_run_kBlobRefPattern s _).2 ⟨scheme, digest, h, rfl⟩
  have hall : ∀ t ∈ run kBlobRefPattern ⟨0, s, []⟩,
      t = ⟨s.length, [], [(2, digest), (1, scheme)]⟩ := by
    intro t ht
    obtain ⟨a, d, had, rfl⟩ := (mem_run_kBlobRefPattern s t).1 ht
    obtain ⟨rfl, rfl⟩ := refSyntax_unique had h
    rfl
  have hhead := head?_of_forall_eq (List.ne_nil_of_mem hmem) hall
  rw [FindStringSubmatch, searchFrom_kBlobRefPattern_zero, hhead]
  simp [kBlobRefPattern, numGroups, List.range_succ, List.lookup]

theorem findStringSubmatch_of_not_refSyntax {s : Bytes}
    (h : ¬ ∃ scheme digest, RefSyntax s scheme digest) :
    FindStringSubmatch kBlobRefPattern s = [] := by
  have hnil : run kBlobRefPattern ⟨0, s, []⟩ = [] := by
    apply List.eq_nil_iff_forall_not_mem.2
    intro t ht
    obtain ⟨a, d, had, _⟩ := (mem_run_kBlobRefPattern s t).1 ht
    exact h ⟨a, d, had⟩
  rw [FindStringSubmatch, searchFrom_kBlobRefPattern_zero, hnil]
  rfl

theorem str_dash : str "-" = [0x2D] := by decide

theorem str_sha1 : str "sha1" = [0x73, 0x68, 0x61, 0x31] := by decide

theorem str_md5 : str "md5" = [0x6D, 0x64, 0x35] := by decide

theorem validRef_refSyntax {s scheme digest : Bytes} (h : ValidRef s scheme digest) :
    RefSyntax s scheme digest := by
  obtain ⟨e, a, b, c, d, _, _⟩ := h
  refine ⟨?_, a, b, c, d⟩
  rw [e, str_dash]; simp

theorem blobIfValid_eq_some (scheme digest : Bytes) (o : BlobRef) :
    blobIfValid scheme digest = some o ↔
      (o = ⟨scheme, digest⟩ ∧ (scheme = str "sha1" → digest.length = 40) ∧
        (scheme = str "md5" → digest.length = 32)) := by
  unfold blobIfValid kExpectedDigestSize
  simp only [List.lookup]
  by_cases h1 : scheme = str "md5"
  · have hne : ¬ str "md5" = str "sha1" := by decide
    simp [h1, eq_comm, hne]
    tauto
  · by_cases h2 : scheme = str "sha1"
    · have : (str "sha1" == str "md5") = false := by decide
      have hne : ¬ str "md5" = str "sha1" := by decide
      simp [h2, this, eq_comm, hne]
      tauto
    · have e1 : (scheme == str "md5") = false := by simpa using h1
      have e2 : (scheme == str "sha1") = false := by simpa using h2
      simp [e1, e2, h1, h2, eq_comm]

theorem Parse_eq_some_iff (s : Bytes) (o : BlobRef) :
    Parse s = some o ↔ ValidRef s o.hashName o.digest := by
  unfold Parse FromPattern
  by_cases h : ∃ scheme digest, RefSyntax s scheme digest
  · obtain ⟨scheme, digest, hsd⟩ := h
    simp only [findStringSubmatch_of_refSyntax hsd]
    simp only [List.length_cons, List.length_nil, ne_eq, not_true, if_false, List.getD_cons_succ,
      List.getD_cons_zero]
    rw [blobIfValid_eq_some]
    constructor
    · rintro ⟨rfl, h1, h2⟩
      obtain ⟨e, a, b, c, d⟩ := hsd
      exact ⟨by rw [e, str_dash]; simp, a, b, c, d, h1, h2⟩
    · intro hv
      obtain ⟨rfl, rfl⟩ := refSyntax_unique (validRef_refSyntax hv) hsd
      exact ⟨rfl, hv.2.2.2.2.2.1, hv.2.2.2.2.2.2⟩
  · simp only [findStringSubmatch_of_not_refSyntax h]
    simp only [List.length_nil, ne_eq, OfNat.zero_ne_ofNat, not_false_eq_true, if_true]
    constructor
    · intro hn; cases hn
    · intro hv
      exact absurd ⟨_, _, validRef_refSyntax hv⟩ h


/-! ## Claims about blob references -/

/-- C1: for every string `s`, `Parse s` is non-nil exactly when `s` is
`scheme-digest` with a non-empty scheme over `[a-z0-9]`, a non-empty digest
over `[a-f0-9]` and, for the schemes `sha1` and `md5`, a digest of 40 and 32
characters; the reference then has that scheme and that digest.  Every other
string gives nil. -/
theorem Parse_iff_validRef (s : Bytes) :
    ((Parse s).isSome = true ↔ ∃ scheme digest, ValidRef s scheme digest) ∧
      ∀ scheme digest, ValidRef s scheme digest → Parse s = some ⟨scheme, digest⟩ := by
  constructor
  · constructor
    · intro h
      obtain ⟨o, ho⟩ := Option.isSome_iff_exists.1 h
      exact ⟨o.hashName, o.digest, (Parse_eq_some_iff s o).1 ho⟩
    · rintro ⟨scheme, digest, hv⟩
      rw [(Parse_eq_some_iff s ⟨scheme, digest⟩).2 hv]
      rfl
  · intro scheme digest hv
    exact (Parse_eq_some_iff s ⟨scheme, digest⟩).2 hv

/-- Strings that `Parse` rejects: the empty string, no dash, upper-case
hexadecimal digits, a second dash, a leading blank, a trailing newline, a
digest too short for `sha1`; and one it accepts. -/
theorem Parse_examples :
    Parse (str "") = none ∧ Parse (str "sha1") = none ∧ Parse (str "foo-0A") = none ∧
      Parse (str "foo-0a-1") = none ∧ Parse (str " foo-0a") = none ∧
      Parse (str "foo-0a\n") = none ∧ Parse (str "sha1-0a") = none ∧
      Parse (str "foo-0a") = some ⟨str "foo", str "0a"⟩ := by
  decide

theorem length_sha1Sum (msg : Bytes) : (sha1Sum msg).length = 20 := by
  simp [sha1Sum, be32]

theorem length_hexOf (bs : Bytes) : (hexOf bs).length = 2 * bs.length := by
  induction bs with
  | nil => rfl
  | cons b tl ih =>
    simp only [hexOf, List.flatMap_cons, List.length_append, List.length_cons, List.length_nil]
      at ih ⊢
    omega

theorem lowerHex_hexDigit (n : Nat) (h : n < 16) : lowerHex (hexDigit n) := by
  unfold lowerHex hexDigit
  split <;> omega

theorem lowerHex_of_mem_hexOf (bs : Bytes) : ∀ c ∈ hexOf bs, lowerHex c := by
  intro c hc
  simp only [hexOf, List.mem_flatMap, List.mem_cons, List.mem_singleton, List.not_mem_nil,
    or_false] at hc
  obtain ⟨b, _, rfl | rfl⟩ := hc
  · exact lowerHex_hexDigit _ (by omega)
  · exact lowerHex_hexDigit _ (by omega)

theorem validRef_sha1 (digest : Bytes) (hlen : digest.length = 40)
    (hhex : ∀ c ∈ digest, lowerHex c) :
    ValidRef (str "sha1" ++ str "-" ++ digest) (str "sha1") digest := by
  refine ⟨rfl, by decide, by decide, ?_, hhex, fun _ => hlen, fun h => absurd h (by decide)⟩
  intro h
  rw [h] at hlen
  simp at hlen

/-- C7: for every byte sequence `b`, `blobDetails` on a reader over `b`
returns its length as the size and the reference `FromHash("sha1", h)`, `h`
the SHA-1 state after all of `b`; parsing the string form of that reference
gives the same reference back, and its digest is 40 lower-case hexadecimal
characters. -/
theorem blobDetails_parse_roundtrip (b : Bytes) (pos : Nat) :
    blobDetails ⟨⟨b, false, false⟩, pos⟩
        = (some (FromHash (str "sha1") (sha1New.Write b)), (b.length : Int), false) ∧
      Parse (FromHash (str "sha1") (sha1New.Write b)).String
        = some (FromHash (str "sha1") (sha1New.Write b)) ∧
      (FromHash (str "sha1") (sha1New.Write b)).hashName = str "sha1" ∧
      (FromHash (str "sha1") (sha1New.Write b)).digest.length = 40 ∧
      ∀ c ∈ (FromHash (str "sha1") (sha1New.Write b)).digest, lowerHex c := by
  have hlen : (hexOf (sha1New.Write b).Sum).length = 40 := by
    rw [length_hexOf]
    simp [Hash.Sum, Hash.Write, sha1New, length_sha1Sum]
  refine ⟨?_, ?_, rfl, hlen, lowerHex_of_mem_hexOf _⟩
  · simp [blobDetails, File.Seek, Hash.Write, sha1New, FromHash]
  · rw [Parse_eq_some_iff]
    exact validRef_sha1 _ hlen (lowerHex_of_mem_hexOf _)

/-- The SHA-1 model on the test vectors of the standard. -/
theorem sha1Sum_examples :
    hexOf (sha1Sum (str "abc")) = str "a9993e364706816aba3e25717850c26c9cd0d89d" ∧
      hexOf (sha1Sum (str "")) = str "da39a3ee5e6b4b0d3255bfef95601890afd80709" := by
  decide

/-- C10, as the code has it: `HashMatches` compares the lower-case
hexadecimal encoding of `h.Sum()` with the digest of `o` byte for byte, without
normalising the digest; for a digest without upper-case letters, such as one
that `Parse` or `FromHash` built, that is the comparison with the normalised
digest. -/
theorem HashMatches_iff_exact (o : BlobRef) (h : Hash) :
    (o.HashMatches h = true ↔ hexOf h.Sum = o.digest) ∧
      ((∀ c ∈ o.digest, ¬ (0x41 ≤ c ∧ c ≤ 0x5A)) →
        (o.HashMatches h = true ↔ hexOf h.Sum = toLower o.digest)) := by
  have hexact : o.HashMatches h = true ↔ hexOf h.Sum = o.digest := by
    simp [BlobRef.HashMatches]
  refine ⟨hexact, fun hno => ?_⟩
  have hl : toLower o.digest = o.digest := by
    unfold toLower
    conv_rhs => rw [← List.map_id o.digest]
    apply List.map_congr_left
    intro c hc
    simp [hno c hc]
  rw [hl]
  exact hexact

/-- C10 fails as stated: the pattern `^([a-z0-9]+)-([a-fA-F0-9]+)$` makes
`FromPattern` build a reference with the SHA-1 digest of "abc" in upper case;
the hexadecimal encoding of the hash equals that digest normalised to lower
case, and `HashMatches` is false. -/
theorem HashMatches_upper_case_digest :
    FromPattern anyCaseRefPattern (str "sha1-A9993E364706816ABA3E25717850C26C9CD0D89D")
        = some ⟨str "sha1", str "A9993E364706816ABA3E25717850C26C9CD0D89D"⟩ ∧
      hexOf (sha1New.Write (str "abc")).Sum
        = toLower (str "A9993E364706816ABA3E25717850C26C9CD0D89D") ∧
      BlobRef.HashMatches ⟨str "sha1", str "A9993E364706816ABA3E25717850C26C9CD0D89D"⟩
        (sha1New.Write (str "abc")) = false := by
  decide

/-! ## Claims about `handleGet`: the examples -/

/-- C2 fails as stated: a GET by somebody who is not the owner, with no `via`,
for a blob that is itself the JSON object `{"camliType":"share"}`: the chain
check passes, `viaPathOkay` is set, the blob is fetched a second time and
served with status 200, and no sleep is requested. -/
theorem handleGet_serves_share_without_via :
    (handleGet (storeEnv [(ref1, shareText)]) (anonGet ref1 [])).conn
        = ⟨some 200, [(str "Content-Type", str "text/plain; charset=utf-8")], shareText⟩ ∧
      (handleGet (storeEnv [(ref1, shareText)]) (anonGet ref1 [])).viaPathOkay = true ∧
      (handleGet (storeEnv [(ref1, shareText)]) (anonGet ref1 [])).fetched = [ref1, ref1] ∧
      (handleGet (storeEnv [(ref1, shareText)]) (anonGet ref1 [])).slept = none := by
  decide

/-- C3 at the failing input: the chain `[ref1, ref2, ref3]`, where the share
`ref1` has the target `ref2` and the interior blob `ref2` is the single byte
`-`.  The bytes of `ref2` do not contain the string form of `ref3`, yet the
handler sends no Unauthorized: it sets `viaPathOkay` and serves `ref3`. -/
theorem handleGet_interior_single_char :
    (¬ ref3.String <:+: str "-") ∧
      (handleGet (storeEnv [(ref1, shareToRef2), (ref2, str "-"), (ref3, str "secret")])
          (anonGet ref3 viaRef12)).conn
        = ⟨some 200, [(str "Content-Type", str "application/octet-stream")], str "secret"⟩ ∧
      (handleGet (storeEnv [(ref1, shareToRef2), (ref2, str "-"), (ref3, str "secret")])
          (anonGet ref3 viaRef12)).viaPathOkay = true ∧
      (handleGet (storeEnv [(ref1, shareToRef2), (ref2, str "-"), (ref3, str "secret")])
          (anonGet ref3 viaRef12)).fetched = [ref1, ref2, ref3] := by
  decide

/-- C5 at the failing input: the chain `[ref1, ref3]`, where hop 0 is the JSON
object `{"target":"sha1-9999999999999999999999999999999999999999"}`: its target
is a string different from the string form of `ref3`, and the handler sends
nothing: the type assertion on the absent `camliType` panics. -/
theorem handleGet_wrong_target_no_camliType :
    (handleGet (storeEnv [(ref1, targetOnlyText), (ref3, str "secret")])
          (anonGet ref3 viaRef1)).panicked = true ∧
      (handleGet (storeEnv [(ref1, targetOnlyText), (ref3, str "secret")])
          (anonGet ref3 viaRef1)).conn = ⟨none, [], []⟩ ∧
      (handleGet (storeEnv [(ref1, targetOnlyText), (ref3, str "secret")])
          (anonGet ref3 viaRef1)).fetched = [ref1] := by
  decide

/-- C6 at two failing inputs, the chain `[ref1, ref3]` both times: hop 0 is the
JSON object `{}`, without `camliType`, and hop 0 is `{"camliType":"share"}`,
without `target`.  Both times the handler panics and sends nothing, where
every other chain failure gets status 401. -/
theorem handleGet_missing_field_panics :
    (handleGet (storeEnv [(ref1, str "\x7b\x7d"), (ref3, str "secret")])
          (anonGet ref3 viaRef1)).panicked = true ∧
      (handleGet (storeEnv [(ref1, str "\x7b\x7d"), (ref3, str "secret")])
          (anonGet ref3 viaRef1)).conn = ⟨none, [], []⟩ ∧
      (handleGet (storeEnv [(ref1, shareText), (ref3, str "secret")])
          (anonGet ref3 viaRef1)).panicked = true ∧
      (handleGet (storeEnv [(ref1, shareText), (ref3, str "secret")])
          (anonGet ref3 viaRef1)).conn = ⟨none, [], []⟩ := by
  decide

/-- C8 fails as stated: the `via` parameter `sha1-1111111111111111111111111111111111111111,bogus`
has the element `bogus`; the handler answers 400 with the message and fetches
nothing, and the deferred function, 5000 ns after the start, sleeps the
remaining 199995000 ns. -/
theorem handleGet_malformed_via_sleeps :
    Parse (str "bogus") = none ∧
      (handleGet (storeEnv [(ref1, shareText), (ref3, str "secret")])
          (anonGet ref3 (viaRef1 ++ str ",bogus"))).conn
        = ⟨some 400, [], str "Malformed blobref in via param"⟩ ∧
      (handleGet (storeEnv [(ref1, shareText), (ref3, str "secret")])
          (anonGet ref3 (viaRef1 ++ str ",bogus"))).fetched = [] ∧
      (handleGet (storeEnv [(ref1, shareText), (ref3, str "secret")])
          (anonGet ref3 (viaRef1 ++ str ",bogus"))).slept = some 199995000 := by
  decide

/-! ## Claims about `handleGet`: the general statements -/

/-- The handler on a request of somebody who is not the owner, whose `via`
parameter parses: the outcome of the loop over the chain decides the answer. -/
theorem handleGet_of_parsed (env : Env) (req : Request) (t : BlobRef) (viaBlobs : List BlobRef)
    (hown : req.isOwner = false) (ht : req.blobRef = some t)
    (hparse : (if req.via ≠ [] then parseVia (splitComma req.via) [] else some [])
      = some viaBlobs) :
    handleGet env req =
      match checkChain env (viaBlobs ++ [t]) 0 (viaBlobs ++ [t]) [] with
      | (.unauthorized, fetched) =>
        ⟨sendUnauthorized ⟨none, [], []⟩, fetched, false, deferredSleep env false, false, false⟩
      | (.panicked, fetched) =>
        ⟨⟨none, [], []⟩, fetched, false, deferredSleep env false, false, true⟩
      | (.pass, fetched) =>
        { serveBlob env req t ⟨none, [], []⟩ fetched with
          viaPathOkay := true, slept := deferredSleep env true } := by
  unfold handleGet
  simp only [ht, hown, hparse]
  rfl

theorem serveBlob_fetched (env : Env) (req : Request) (t : BlobRef) (conn : Conn)
    (fetched : List BlobRef) : (serveBlob env req t conn fetched).fetched = fetched ++ [t] := rfl

theorem checkChain_single (env : Env) (t : BlobRef) :
    checkChain env [t] 0 [t] [] = (hopZero env [t] t 0, [t]) := by
  simp only [checkChain, if_true, List.length_nil, List.nil_append]
  cases hopZero env [t] t 0 <;> rfl

/-- C2, as the code has it: a GET by somebody who is not the owner, with an
empty `via`, is answered Unauthorized, without serving the target, when the
fetch of the target fails, or its size exceeds 64 KiB, or it does not decode
as a JSON object, or its `camliType` is a string other than "share"; when the
target itself is a JSON object of at most 64 KiB whose `camliType` is the
string "share", the chain check passes: `viaPathOkay` is set, no sleep is
requested, and the target is fetched again and served. -/
theorem handleGet_target_alone (env : Env) (req : Request) (t : BlobRef)
    (hown : req.isOwner = false) (ht : req.blobRef = some t) (hvia : req.via = []) :
    (((∃ e, env.fetch 0 t = .err e) ∨
        (∃ file size, env.fetch 0 t = .ok file size ∧
          (size > 64 * 1024 ∨ env.jsonDecode file.stream = none ∨
            ∃ m camliType, env.jsonDecode file.stream = some m ∧
              m (str "camliType") = some (.string camliType) ∧ camliType ≠ str "share"))) →
      (handleGet env req).conn = sendUnauthorized ⟨none, [], []⟩ ∧
        (handleGet env req).fetched = [t] ∧
        (handleGet env req).viaPathOkay = false ∧
        (handleGet env req).panicked = false) ∧
      (∀ file size m, env.fetch 0 t = .ok file size → size ≤ 64 * 1024 →
        env.jsonDecode file.stream = some m →
        m (str "camliType") = some (.string (str "share")) →
        (handleGet env req).viaPathOkay = true ∧
          (handleGet env req).slept = none ∧
          (handleGet env req).fetched = [t, t] ∧
          (handleGet env req).conn = (serveBlob env req t ⟨none, [], []⟩ [t]).conn) := by
  have hparse : (if req.via ≠ [] then parseVia (splitComma req.via) [] else some [])
      = some [] := by simp [hvia]
  have hG := handleGet_of_parsed env req t [] hown ht hparse
  simp only [List.nil_append, checkChain_single] at hG
  constructor
  · intro hrej
    have hz : hopZero env [t] t 0 = .unauthorized := by
      unfold hopZero
      rcases hrej with ⟨e, he⟩ | ⟨file, size, hf, hcase⟩
      · simp [he]
      · simp only [hf]
        by_cases hsz : size > maxJsonSize
        · simp [hsz]
        · simp only [hsz, if_false]
          rcases hcase with h1 | h2 | ⟨m, ct, hm, hct, hne⟩
          · exact absurd h1 (by simpa [maxJsonSize] using hsz)
          · simp [h2]
          · simp [hm, hct, hne]
    rw [hG, hz]
    exact ⟨rfl, rfl, rfl, rfl⟩
  · intro file size m hf hsz hm hct
    have hz : hopZero env [t] t 0 = .pass := by
      unfold hopZero
      have hsz2 : ¬ size > maxJsonSize := by simpa [maxJsonSize] using hsz
      simp [hf, hsz2, hm, hct]
    rw [hG, hz]
    refine ⟨rfl, rfl, ?_, rfl⟩
    simp [serveBlob_fetched]

/-- C2, the amended claim at two inputs: a target that is not in the store is
rejected, and the share blob `ref1` is served without a `via`. -/
theorem handleGet_target_alone_witness :
    ((handleGet (storeEnv []) (anonGet ref1 [])).conn = sendUnauthorized ⟨none, [], []⟩ ∧
        (handleGet (storeEnv []) (anonGet ref1 [])).fetched = [ref1] ∧
        (handleGet (storeEnv []) (anonGet ref1 [])).viaPathOkay = false ∧
        (handleGet (storeEnv []) (anonGet ref1 [])).panicked = false) ∧
      ((handleGet (storeEnv [(ref1, shareText)]) (anonGet ref1 [])).viaPathOkay = true ∧
        (handleGet (storeEnv [(ref1, shareText)]) (anonGet ref1 [])).slept = none ∧
        (handleGet (storeEnv [(ref1, shareText)]) (anonGet ref1 [])).fetched = [ref1, ref1] ∧
        (handleGet (storeEnv [(ref1, shareText)]) (anonGet ref1 [])).conn
          = (serveBlob (storeEnv [(ref1, shareText)]) (anonGet ref1 []) ref1 ⟨none, [], []⟩
              [ref1]).conn) :=
  ⟨(handleGet_target_alone (storeEnv []) (anonGet ref1 []) ref1 rfl rfl rfl).1
      (Or.inl ⟨.ENOENT, by decide⟩),
    (handleGet_target_alone (storeEnv [(ref1, shareText)]) (anonGet ref1 []) ref1 rfl rfl rfl).2
      ⟨shareText, false, false⟩ 21 (jsonOf [(str "camliType", .string (str "share"))])
      (by decide) (by decide) (by rfl) (by rfl)⟩

theorem parseVia_eq_none_iff (l : List Bytes) :
    ∀ acc : List BlobRef, parseVia l acc = none ↔ ∃ vs ∈ l, Parse vs = none := by
  induction l with
  | nil => intro acc; simp [parseVia]
  | cons vs rest ih =>
    intro acc
    cases h : Parse vs with
    | none => simp [parseVia, h]
    | some br => simp [parseVia, h, ih]

theorem i64_of_range (x : Int) (h0 : -2 ^ 63 ≤ x) (h1 : x < 2 ^ 63) : i64 x = x := by
  unfold i64
  omega

/-- C8, as the code has it: a GET by somebody who is not the owner, whose
non-empty `via` has an element that `Parse` rejects, is answered with the
bad-request outcome "Malformed blobref in via param" and no fetch is made;
the deferred function runs on this exit too, with `viaPathOkay` false: when
the clock has advanced by `e` ns since `startTime`, it sleeps `200e6 - e` ns
if that is positive. -/
theorem handleGet_malformed_via (env : Env) (req : Request) (t : BlobRef)
    (hown : req.isOwner = false) (ht : req.blobRef = some t) (hvia : req.via ≠ [])
    (hbad : ∃ vs ∈ splitComma req.via, Parse vs = none)
    (he0 : 0 ≤ env.endTime - env.startTime) (he1 : env.endTime - env.startTime < 2 ^ 63) :
    (handleGet env req).conn
        = BadRequestError ⟨none, [], []⟩ (str "Malformed blobref in via param") ∧
      (handleGet env req).fetched = [] ∧
      (handleGet env req).panicked = false ∧
      (handleGet env req).slept
        = if env.endTime - env.startTime < 200000000
          then some (200000000 - (env.endTime - env.startTime)) else none := by
  have hnone : parseVia (splitComma req.via) [] = none := (parseVia_eq_none_iff _ _).2 hbad
  have hG : handleGet env req
      = ⟨BadRequestError ⟨none, [], []⟩ (str "Malformed blobref in via param"), [], false,
          deferredSleep env false, false, false⟩ := by
    have hparse : (if req.via ≠ [] then parseVia (splitComma req.via) [] else some [])
        = none := by rw [if_pos hvia]; exact hnone
    unfold handleGet
    simp only [ht, hown, hparse]
    rfl
  rw [hG]
  refine ⟨rfl, rfl, rfl, ?_⟩
  simp only [deferredSleep, fetchFailureDelayNs]
  rw [i64_of_range _ (by omega) he1, i64_of_range _ (by omega) (by omega)]
  by_cases h : env.endTime - env.startTime < 200000000
  · have : (200000000 : Int) - (env.endTime - env.startTime) > 0 := by omega
    simp [h, this]
  · have : ¬ ((200000000 : Int) - (env.endTime - env.startTime) > 0) := by omega
    simp [h, this]

/-- C8, the amended claim at an input: the `via` parameter `bogus`, with the
clock 5000 ns after the start. -/
theorem handleGet_malformed_via_witness :
    (handleGet (storeEnv []) (anonGet ref3 (str "bogus"))).conn
        = BadRequestError ⟨none, [], []⟩ (str "Malformed blobref in via param") ∧
      (handleGet (storeEnv []) (anonGet ref3 (str "bogus"))).fetched = [] ∧
      (handleGet (storeEnv []) (anonGet ref3 (str "bogus"))).panicked = false ∧
      (handleGet (storeEnv []) (anonGet ref3 (str "bogus"))).slept
        = if (storeEnv []).endTime - (storeEnv []).startTime < 200000000
          then some (200000000 - ((storeEnv []).endTime - (storeEnv []).startTime)) else none :=
  handleGet_malformed_via (storeEnv []) (anonGet ref3 (str "bogus")) ref3 rfl rfl (by decide)
    ⟨str "bogus", by decide, by decide⟩ (by decide) (by decide)

theorem handleGet_conn_of_served (env : Env) (req : Request) (t : BlobRef)
    (ht : req.blobRef = some t)
    (hchain : req.isOwner = true ∨ (handleGet env req).viaPathOkay = true) :
    ∃ f, (handleGet env req).conn = (serveBlob env req t ⟨none, [], []⟩ f).conn ∧
      (handleGet env req).connClosed = (serveBlob env req t ⟨none, [], []⟩ f).connClosed ∧
      (handleGet env req).panicked = (serveBlob env req t ⟨none, [], []⟩ f).panicked ∧
      (handleGet env req).fetched = f ++ [t] := by
  by_cases hown : req.isOwner = true
  · refine ⟨[], ?_⟩
    have : handleGet env req = serveBlob env req t ⟨none, [], []⟩ [] := by
      unfold handleGet
      simp [ht, hown]
    rw [this]
    exact ⟨rfl, rfl, rfl, rfl⟩
  · have hown2 : req.isOwner = false := by simpa using hown
    have hok : (handleGet env req).viaPathOkay = true := by
      rcases hchain with h | h
      · exact absurd h hown
      · exact h
    cases hparse : (if req.via ≠ [] then parseVia (splitComma req.via) [] else some []) with
    | none =>
      have hG : handleGet env req
          = ⟨BadRequestError ⟨none, [], []⟩ (str "Malformed blobref in via param"), [], false,
              deferredSleep env false, false, false⟩ := by
        unfold handleGet
        simp only [ht, hown2, hparse]
        rfl
      rw [hG] at hok
      exact absurd hok (by simp)
    | some viaBlobs =>
      have hG := handleGet_of_parsed env req t viaBlobs hown2 ht hparse
      cases hc : checkChain env (viaBlobs ++ [t]) 0 (viaBlobs ++ [t]) [] with
      | mk hop fetched =>
        rw [hc] at hG
        cases hop with
        | pass =>
          simp only at hG
          refine ⟨fetched, ?_⟩
          rw [hG]
          exact ⟨rfl, rfl, rfl, rfl⟩
        | unauthorized =>
          simp only at hG
          rw [hG] at hok
          exact absurd hok (by simp)
        | panicked =>
          simp only at hG
          rw [hG] at hok
          exact absurd hok (by simp)

theorem decimal_natCast (k : Nat) : decimal (k : Int) = decimalNat k := by
  unfold decimal
  have : ¬ ((k : Int) < 0) := by omega
  simp [this]

theorem sendFile_ranged (env : Env) (rr : RequestedRange) (file : File) (n s l : Nat)
    (hsize : file.data.length = n) (hn : n < 2 ^ 63)
    (hskip : rr.SkipBytes = (s : Int)) (hlimit : rr.LimitBytes = (l : Int))
    (hranged : rr.IsWholeFile = false) (hsn : s ≤ n) (hseek : file.seekErr = false)
    (hwrite : ∀ k, env.writeLimit = some k → min l (n - s) ≤ k) :
    (sendFile env rr file (n : Int) ⟨none, [], []⟩).1
      = ⟨some 206, [(str "Content-Type", str "application/octet-stream"),
            (str "Content-Range", str "bytes " ++ decimalNat s ++ str "-"
              ++ decimalNat (s + min l (n - s)) ++ str "/" ++ decimalNat n)],
          (file.data.drop s).take (min l (n - s))⟩ := by
  have hseeked : (if (s : Int) ≠ 0 then file.Seek (s : Int) else some file.stream)
      = some ⟨file.data.drop s, file.readErr⟩ := by
    by_cases h0 : (s : Int) = 0
    · have : s = 0 := by omega
      subst this
      simp [File.stream]
    · have hneg : ¬ ((s : Int) < 0) := by omega
      simp [h0, File.Seek, hseek, hneg]
  have hl1 : (l : Int) ≠ -1 := by omega
  have hdrop : (file.data.drop s).length = n - s := by simp [hsize]
  have hinput : (LimitReader ⟨file.data.drop s, file.readErr⟩ (l : Int)).data
      = (file.data.drop s).take (min l (n - s)) := by
    unfold LimitReader
    simp only [Int.toNat_ofNat, hdrop]
    by_cases hle : l ≤ n - s
    · simp [hle, Nat.min_eq_left hle]
    · have hmin : min l (n - s) = n - s := Nat.min_eq_right (by omega)
      simp only [hle, if_false, hmin]
      rw [List.take_of_length_le (by omega)]
  have hinputlen : (LimitReader ⟨file.data.drop s, file.readErr⟩ (l : Int)).data.length
      = min l (n - s) := by
    rw [hinput, List.length_take, hdrop]
    exact Nat.min_eq_left (Nat.min_le_right _ _)
  have hi64 : i64 ((n : Int) - (s : Int)) = ((n - s : Nat) : Int) := by
    rw [i64_of_range _ (by omega) (by omega)]
    omega
  have hremain : (if (l : Int) < ((n - s : Nat) : Int) then (l : Int)
      else ((n - s : Nat) : Int)) = ((min l (n - s) : Nat) : Int) := by
    by_cases hlt : l < n - s
    · have : (l : Int) < ((n - s : Nat) : Int) := by omega
      simp only [this, if_true]
      rw [Nat.min_eq_left (by omega)]
    · have : ¬ (l : Int) < ((n - s : Nat) : Int) := by omega
      simp only [this, if_false]
      rw [Nat.min_eq_right (by omega)]
  have hsum : i64 ((s : Int) + ((min l (n - s) : Nat) : Int))
      = ((s + min l (n - s) : Nat) : Int) := by
    rw [i64_of_range _ (by omega) (by omega)]
    omega
  have hcopy : ioCopy env.writeLimit (LimitReader ⟨file.data.drop s, file.readErr⟩ (l : Int))
      = ((file.data.drop s).take (min l (n - s)), ((min l (n - s) : Nat) : Int),
          (LimitReader ⟨file.data.drop s, file.readErr⟩ (l : Int)).err) := by
    unfold ioCopy
    cases hw : env.writeLimit with
    | none =>
      simp only
      rw [hinputlen, hinput]
    | some k =>
      have := hwrite k hw
      have hk : ¬ k < (LimitReader ⟨file.data.drop s, file.readErr⟩ (l : Int)).data.length := by
        rw [hinputlen]; omega
      simp only [hk, if_false]
      rw [hinputlen, hinput]
  unfold sendFile
  simp only [hskip, hlimit, hranged, hseeked, hl1, ne_eq, not_false_eq_true, if_true, if_false,
    true_and, hi64, hremain, hsum, hcopy, decimal_natCast, Bool.false_eq_true, Bool.not_false]
  by_cases hempty : (file.data.drop s).take (min l (n - s)) = []
  · simp only [hempty, if_true]
    split <;> simp [Conn.SetHeader, Conn.WriteHeader]
  · simp only [hempty, if_false]
    split <;> simp [Conn.SetHeader, Conn.WriteHeader, Conn.Write]

/-- C9: a ranged (not whole-file) request with skip `s` and limit `l`,
`0 ≤ s ≤ n` and `l ≥ 0`, for a blob of size `n`, on which the chain check
passed (or the caller is the owner) and the fetch of the target, the last
fetch of the handler, gave the blob; the seek succeeds and the connection
takes the bytes.  The expected length is `r = min l (n - s)`: the status is
206, the content type `application/octet-stream`, the `Content-Range` header
`bytes s-(s+r)/n`, and the body is exactly the `r` bytes of the blob from
offset `s`. -/
theorem handleGet_ranged (env : Env) (req : Request) (t : BlobRef) (file : File) (n s l : Nat)
    (ht : req.blobRef = some t)
    (hchain : req.isOwner = true ∨ (handleGet env req).viaPathOkay = true)
    (hfetch : env.fetch ((handleGet env req).fetched.length - 1) t = .ok file (n : Int))
    (hsize : file.data.length = n) (hn : n < 2 ^ 63)
    (hskip : req.reqRange.SkipBytes = (s : Int)) (hlimit : req.reqRange.LimitBytes = (l : Int))
    (hranged : req.reqRange.IsWholeFile = false) (hsn : s ≤ n)
    (hseek : file.seekErr = false)
    (hwrite : ∀ k, env.writeLimit = some k → min l (n - s) ≤ k) :
    (handleGet env req).conn.status = some 206 ∧
      (handleGet env req).conn.headers
        = [(str "Content-Type", str "application/octet-stream"),
            (str "Content-Range", str "bytes " ++ decimalNat s ++ str "-"
              ++ decimalNat (s + min l (n - s)) ++ str "/" ++ decimalNat n)] ∧
      (handleGet env req).conn.body = (file.data.drop s).take (min l (n - s)) ∧
      (handleGet env req).conn.body.length = min l (n - s) := by
  obtain ⟨f, hconn, _, _, hf⟩ := handleGet_conn_of_served env req t ht hchain
  rw [hf] at hfetch
  simp only [List.length_append, List.length_singleton, Nat.add_sub_cancel] at hfetch
  have hlen : ((file.data.drop s).take (min l (n - s))).length = min l (n - s) := by
    simp only [List.length_take, List.length_drop, hsize]
    omega
  rw [hconn]
  have hbody : (serveBlob env req t ⟨none, [], []⟩ f).conn
      = ⟨some 206, [(str "Content-Type", str "application/octet-stream"),
            (str "Content-Range", str "bytes " ++ decimalNat s ++ str "-"
              ++ decimalNat (s + min l (n - s)) ++ str "/" ++ decimalNat n)],
          (file.data.drop s).take (min l (n - s))⟩ := by
    have hs : (serveBlob env req t ⟨none, [], []⟩ f).conn
        = (sendFile env req.reqRange file (n : Int) ⟨none, [], []⟩).1 := by
      unfold serveBlob
      simp only [hfetch]
    rw [hs]
    exact sendFile_ranged env req.reqRange file n s l hsize hn hskip hlimit hranged hsn hseek
      hwrite
  rw [hbody]
  exact ⟨rfl, rfl, rfl, hlen⟩

/-- C9 at the input of the claim: skip 10 and limit 5 on a blob of 100 bytes,
reached through a share, give status 206, the header `bytes 10-15/100` and the
five bytes from offset 10. -/
theorem handleGet_ranged_witness :
    (handleGet rangedEnv rangedGet).conn.status = some 206 ∧
      (handleGet rangedEnv rangedGet).conn.headers
        = [(str "Content-Type", str "application/octet-stream"),
            (str "Content-Range", str "bytes 10-15/100")] ∧
      (handleGet rangedEnv rangedGet).conn.body = [10, 11, 12, 13, 14] ∧
      (handleGet rangedEnv rangedGet).conn.body.length = 5 :=
  handleGet_ranged rangedEnv rangedGet ref2 ⟨List.range 100, false, false⟩ 100 10 5 rfl
    (Or.inr (by decide)) (by decide) (by decide) (by decide) rfl rfl rfl (by decide) rfl
    (fun k hk => by simp [rangedEnv, storeEnv] at hk)

theorem decodeRune_cont (b : Nat) (tl : Bytes) :
    ∀ x ∈ tl.take ((decodeRune (b :: tl)).2 - 1), 0x80 ≤ x := by
  unfold decodeRune
  repeat' split
  all_goals simp_all [isCont]
  all_goals (split <;> simp_all)

theorem mem_runesAux (c : Nat) (hc : c < 0x80) :
    ∀ (l : Bytes) (skip : Nat), (∀ x ∈ l.take skip, 0x80 ≤ x) → c ∈ l → c ∈ runesAux skip l := by
  intro l
  induction l with
  | nil => intro skip _ h; simp at h
  | cons b tl ih =>
    intro skip hskip hmem
    cases skip with
    | succ k =>
      simp only [runesAux]
      have hb : 0x80 ≤ b := hskip b (by simp)
      have hne : c ≠ b := by omega
      have hctl : c ∈ tl := by
        rcases List.mem_cons.1 hmem with h | h
        · exact absurd h hne
        · exact h
      exact ih k (fun x hx => hskip x (by simp [hx])) hctl
    | zero =>
      simp only [runesAux, List.mem_cons]
      rcases List.mem_cons.1 hmem with h | h
      · left
        subst h
        rw [decodeRune_ascii c tl hc]
      · right
        exact ih _ (decodeRune_cont b tl) h

theorem indexAnyAux_ne (cs : List Nat) (c : Nat) (hc : c < 0x80) (hcs : c ∈ cs) :
    ∀ (l : Bytes) (pos skip : Nat), (∀ x ∈ l.take skip, 0x80 ≤ x) → c ∈ l →
      indexAnyAux cs pos skip l ≠ -1 := by
  intro l
  induction l with
  | nil => intro pos skip _ h; simp at h
  | cons b tl ih =>
    intro pos skip hskip hmem
    cases skip with
    | succ k =>
      simp only [indexAnyAux]
      have hb : 0x80 ≤ b := hskip b (by simp)
      have hne : c ≠ b := by omega
      have hctl : c ∈ tl := by
        rcases List.mem_cons.1 hmem with h | h
        · exact absurd h hne
        · exact h
      exact ih _ k (fun x hx => hskip x (by simp [hx])) hctl
    | zero =>
      simp only [indexAnyAux]
      split
      · omega
      · rename_i hnot
        rcases List.mem_cons.1 hmem with h | h
        · subst h
          rw [decodeRune_ascii c tl hc] at hnot
          exact absurd hcs hnot
        · exact ih _ _ (decodeRune_cont b tl) h

theorem indexAny_ne_of_infix (s sub : Bytes) (c : Nat) (hc : c < 0x80) (hmem : c ∈ sub)
    (hsub : sub <:+: s) : IndexAny s sub ≠ -1 := by
  unfold IndexAny
  have hlen : sub.length > 0 := List.length_pos_of_mem hmem
  simp only [hlen, if_true]
  exact indexAnyAux_ne (runes sub) c hc (mem_runesAux c hc sub 0 (by simp) hmem) s 0 0
    (by simp) (hsub.subset hmem)

theorem dash_mem_String (o : BlobRef) : 0x2D ∈ o.String := by
  simp [BlobRef.String, str_dash]

theorem readAll_limitReader (file : File) :
    (ReadAll (LimitReader file.stream maxJsonSize)).1 = file.data.take (64 * 1024) := by
  unfold ReadAll LimitReader File.stream maxJsonSize
  simp only [show ((64 : Int) * 1024).toNat = 64 * 1024 by decide]
  split
  · rfl
  · rename_i h
    simp only
    rw [List.take_of_length_le (by omega)]

theorem hopInterior_pass (env : Env) (fetchChain : List BlobRef) (i : Nat) (br next : BlobRef)
    (file : File) (size : Int) (hnext : fetchChain[i + 1]? = some next)
    (hfetch : env.fetch i br = .ok file size)
    (hread : (ReadAll (LimitReader file.stream maxJsonSize)).2 = false)
    (hsub : next.String <:+: file.data.take (64 * 1024)) :
    hopInterior env fetchChain i br i = .pass := by
  unfold hopInterior
  simp only [hfetch]
  have hget : fetchChain.getD (i + 1) ⟨[], []⟩ = next := by
    rw [List.getD_eq_getElem?_getD, hnext]; rfl
  have h1 := readAll_limitReader file
  have hidx : IndexAny (ReadAll (LimitReader file.stream maxJsonSize)).1 next.String ≠ -1 := by
    rw [h1]
    exact indexAny_ne_of_infix _ _ 0x2D (by norm_num) (dash_mem_String next) hsub
  simp only [hread, hget, hidx]
  rfl

theorem checkChain_interior (env : Env) (fetchChain : List BlobRef) :
    ∀ (rest : List BlobRef) (i : Nat) (fetched : List BlobRef), 0 < i →
      fetchChain.drop i = rest → fetched.length = i →
      (∀ j br, i ≤ j → j + 1 < fetchChain.length → fetchChain[j]? = some br →
        hopInterior env fetchChain j br j = .pass) →
      checkChain env fetchChain i rest fetched = (.pass, fetched ++ rest.dropLast) := by
  intro rest
  induction rest with
  | nil => intro i fetched _ _ _ _; simp [checkChain]
  | cons br rest ih =>
    intro i fetched hi hdrop hlen hpass
    have hilt : i < fetchChain.length := by
      by_contra hge
      rw [List.drop_of_length_le (by omega)] at hdrop
      cases hdrop
    have hbr : fetchChain[i]? = some br := by
      have := congrArg List.head? hdrop
      simpa [List.head?_drop] using this
    have hrest : fetchChain.drop (i + 1) = rest := by
      have := congrArg List.tail hdrop
      simpa [List.tail_drop] using this
    have hi0 : i ≠ 0 := by omega
    simp only [checkChain, hi0, if_false]
    by_cases hlast : i = fetchChain.length - 1
    · have hnil : rest = [] := by
        rw [← hrest, List.drop_of_length_le (by omega)]
      subst hnil
      simp [hlast, checkChain]
    · simp only [hlast, if_false, hlen]
      rw [hpass i br (le_refl _) (by omega) hbr]
      simp only
      have hne : rest ≠ [] := by
        intro h
        have := congrArg List.length hrest
        simp [h] at this
        omega
      rw [ih (i + 1) (fetched ++ [br]) (by omega) hrest (by simp [hlen])
        (fun j b hj hj2 hb => hpass j b (by omega) hj2 hb)]
      rw [List.dropLast_cons_of_ne_nil hne]
      simp

theorem sendFile_status_ne_401 (env : Env) (rr : RequestedRange) (file : File) (size : Int) :
    (sendFile env rr file size ⟨none, [], []⟩).1.status ≠ some 401 := by
  unfold sendFile
  simp only []
  generalize (if rr.SkipBytes ≠ 0 then file.Seek rr.SkipBytes else some file.stream) = seeked
  cases seeked with
  | none => simp [ServerError, Conn.WriteHeader, Conn.Write]
  | some fileStream =>
    simp only []
    split_ifs <;> simp [Conn.SetHeader, Conn.WriteHeader, Conn.Write]

theorem serveBlob_status_ne_401 (env : Env) (req : Request) (t : BlobRef)
    (fetched : List BlobRef) :
    (serveBlob env req t ⟨none, [], []⟩ fetched).conn.status ≠ some 401 := by
  unfold serveBlob
  simp only
  split
  · simp [Conn.WriteHeader, Conn.Write]
  · simp [ServerError, Conn.WriteHeader, Conn.Write]
  · exact sendFile_status_ne_401 _ _ _ _

/-- C4, as the code has it: for a GET by somebody who is not the owner, with
the fetch chain `via ++ [target]` of at least two elements, if hop 0 fetches
without error, has a size of at most 64 KiB and decodes as a JSON object whose
`camliType` is the string "share" and whose `target` is the string form of hop
1, and every interior hop fetches and reads without error and the first 64 KiB
of its bytes contain the string form of the next hop, then the chain check
passes: no Unauthorized response is sent, `viaPathOkay` is set, no sleep is
requested, and the handler fetches the target after the hops and serves it. -/
theorem handleGet_valid_chain (env : Env) (req : Request) (t : BlobRef)
    (viaBlobs : List BlobRef) (hown : req.isOwner = false) (ht : req.blobRef = some t)
    (hparse : (if req.via ≠ [] then parseVia (splitComma req.via) [] else some [])
      = some viaBlobs)
    (hne : viaBlobs ≠ [])
    (h0 : ∃ share next file size m, (viaBlobs ++ [t])[0]? = some share ∧
      (viaBlobs ++ [t])[1]? = some next ∧ env.fetch 0 share = .ok file size ∧
      size ≤ 64 * 1024 ∧ env.jsonDecode file.stream = some m ∧
      m (str "camliType") = some (.string (str "share")) ∧
      m (str "target") = some (.string next.String))
    (hi : ∀ i br next, 0 < i → (viaBlobs ++ [t])[i]? = some br →
      (viaBlobs ++ [t])[i + 1]? = some next →
      ∃ file size, env.fetch i br = .ok file size ∧
        (ReadAll (LimitReader file.stream maxJsonSize)).2 = false ∧
        next.String <:+: file.data.take (64 * 1024)) :
    (handleGet env req).viaPathOkay = true ∧
      (handleGet env req).slept = none ∧
      (handleGet env req).fetched = viaBlobs ++ [t] ∧
      (handleGet env req).conn = (serveBlob env req t ⟨none, [], []⟩ viaBlobs).conn ∧
      (handleGet env req).conn.status ≠ some 401 := by
  have hG := handleGet_of_parsed env req t viaBlobs hown ht hparse
  obtain ⟨v0, vs, rfl⟩ : ∃ v0 vs, viaBlobs = v0 :: vs := by
    cases viaBlobs with
    | nil => exact absurd rfl hne
    | cons a l => exact ⟨a, l, rfl⟩
  obtain ⟨share, next, file, size, m, hs, hn, hf, hsz, hm, hct, htg⟩ := h0
  have hshare : share = v0 := by simpa using hs.symm
  subst hshare
  have hz : hopZero env (share :: vs ++ [t]) share 0 = .pass := by
    unfold hopZero
    have hsz2 : ¬ size > maxJsonSize := by simpa [maxJsonSize] using hsz
    have hget : (share :: vs ++ [t]).getD 1 ⟨[], []⟩ = next := by
      rw [List.getD_eq_getElem?_getD, hn]; rfl
    simp only [hf, hsz2, if_false, hm, hct, htg, hget, ne_eq, not_true_eq_false]
    split <;> rfl
  have hrest : checkChain env (share :: vs ++ [t]) 1 (vs ++ [t]) [share]
      = (.pass, [share] ++ (vs ++ [t]).dropLast) := by
    apply checkChain_interior env (share :: vs ++ [t]) (vs ++ [t]) 1 [share] (by omega)
      (by simp) rfl
    intro j br hj hj2 hbr
    have hnx : ∃ nx, (share :: vs ++ [t])[j + 1]? = some nx := by
      have hlt : j + 1 < (share :: vs ++ [t]).length := hj2
      exact ⟨(share :: vs ++ [t])[j + 1], List.getElem?_eq_getElem hlt⟩
    obtain ⟨nx, hnx⟩ := hnx
    obtain ⟨fl, sz, hfl, hrd, hsub⟩ := hi j br nx (by omega) hbr hnx
    exact hopInterior_pass env _ j br nx fl sz hnx hfl hrd hsub
  have hcc : checkChain env (share :: vs ++ [t]) 0 (share :: vs ++ [t]) []
      = (.pass, share :: vs) := by
    have : checkChain env (share :: vs ++ [t]) 0 (share :: vs ++ [t]) []
        = checkChain env (share :: vs ++ [t]) 1 (vs ++ [t]) [share] := by
      conv_lhs => rw [show (share :: vs ++ [t]) = share :: (vs ++ [t]) from rfl]
      simp only [checkChain, if_true, List.length_nil, List.nil_append]
      rw [show share :: (vs ++ [t]) = (share :: vs ++ [t]) from rfl, hz]
    rw [this, hrest]
    simp
  rw [hcc] at hG
  simp only at hG
  rw [hG]
  refine ⟨rfl, rfl, ?_, rfl, serveBlob_status_ne_401 _ _ _ _⟩
  simp [serveBlob_fetched]

/-- C4, the amended claim at an input: the chain `[ref1, ref2, ref3]` where
the share `ref1` has the target `ref2` and the interior blob `ref2` is the
string form of `ref3`. -/
theorem handleGet_valid_chain_witness :
    (handleGet (storeEnv [(ref1, shareToRef2), (ref2, ref3.String), (ref3, str "secret")])
        (anonGet ref3 viaRef12)).viaPathOkay = true ∧
      (handleGet (storeEnv [(ref1, shareToRef2), (ref2, ref3.String), (ref3, str "secret")])
        (anonGet ref3 viaRef12)).slept = none ∧
      (handleGet (storeEnv [(ref1, shareToRef2), (ref2, ref3.String), (ref3, str "secret")])
        (anonGet ref3 viaRef12)).fetched = [ref1, ref2] ++ [ref3] ∧
      (handleGet (storeEnv [(ref1, shareToRef2), (ref2, ref3.String), (ref3, str "secret")])
        (anonGet ref3 viaRef12)).conn
        = (serveBlob (storeEnv [(ref1, shareToRef2), (ref2, ref3.String), (ref3, str "secret")])
            (anonGet ref3 viaRef12) ref3 ⟨none, [], []⟩ [ref1, ref2]).conn ∧
      (handleGet (storeEnv [(ref1, shareToRef2), (ref2, ref3.String), (ref3, str "secret")])
        (anonGet ref3 viaRef12)).conn.status ≠ some 401 :=
  handleGet_valid_chain (storeEnv [(ref1, shareToRef2), (ref2, ref3.String), (ref3, str "secret")])
    (anonGet ref3 viaRef12) ref3 [ref1, ref2] rfl rfl (by decide) (by decide)
    ⟨ref1, ref2, ⟨shareToRef2, false, false⟩, (shareToRef2.length : Int),
      jsonOf [(str "camliType", .string (str "share")),
        (str "target", .string (str "sha1-2222222222222222222222222222222222222222"))],
      by decide, by decide, by decide, by decide, by rfl, by rfl, by rfl⟩
    (fun i br next hi hbr hnext => by
      have h1 : i = 1 := by
        have hlt : i + 1 < ([ref1, ref2] ++ [ref3]).length := by
          by_contra hge
          rw [List.getElem?_eq_none (by omega)] at hnext
          cases hnext
        simp at hlt
        omega
      subst h1
      have hb : br = ref2 := by simpa using hbr.symm
      have hn : next = ref3 := by simpa using hnext.symm
      subst hb hn
      exact ⟨⟨ref3.String, false, false⟩, 45, by decide, by decide, by decide⟩)


theorem indexAnyAux_replicate (cs : List Nat) (z : Nat) (hz : z < 0x80) (hcs : z ∉ cs) :
    ∀ (k pos : Nat), indexAnyAux cs pos 0 (List.replicate k z) = -1 := by
  intro k
  induction k with
  | zero => intro pos; rfl
  | succ k ih =>
    intro pos
    simp only [List.replicate_succ, indexAnyAux, decodeRune_ascii z _ hz, hcs, if_false]
    exact ih _

theorem readAll_fst (r : Stream) : (ReadAll r).1 = r.data := rfl

theorem readAll_snd (r : Stream) : (ReadAll r).2 = r.err := rfl

theorem stream_data (data : Bytes) (e1 e2 : Bool) :
    (File.stream ⟨data, e1, e2⟩).data = data := rfl

theorem limitReader_err (r : Stream) (n : Int) (h : n.toNat ≤ r.data.length) :
    (LimitReader r n).err = false := by
  unfold LimitReader
  rw [if_pos h]

theorem limitReader_data (r : Stream) (n : Int) (h : n.toNat ≤ r.data.length) :
    (LimitReader r n).data = r.data.take n.toNat := by
  unfold LimitReader
  rw [if_pos h]

theorem length_bigBlob : bigBlob.length = 65536 + 45 := by
  unfold bigBlob
  rw [List.length_append, List.length_replicate, show ref3.String.length = 45 by decide]

theorem maxJsonSize_le_bigBlob :
    maxJsonSize.toNat ≤ (File.stream ⟨bigBlob, false, false⟩).data.length := by
  rw [stream_data, length_bigBlob]
  decide

theorem hopInterior_ok (env : Env) (fetchChain : List BlobRef) (i : Nat) (br : BlobRef)
    (n : Nat) (file : File) (size : Int) (h : env.fetch n br = .ok file size) :
    hopInterior env fetchChain i br n
      = if (LimitReader file.stream maxJsonSize).err = true then .unauthorized
        else if IndexAny (LimitReader file.stream maxJsonSize).data
            (fetchChain.getD (i + 1) ⟨[], []⟩).String = -1 then .unauthorized
        else .pass := by
  unfold hopInterior
  rw [h]
  rfl

theorem hopInterior_bigBlob :
    hopInterior bigEnv ([ref1, ref2] ++ [ref3]) 1 ref2 1 = .unauthorized := by
  have hfetch : bigEnv.fetch 1 ref2 = .ok ⟨bigBlob, false, false⟩ (bigBlob.length : Int) := rfl
  have herr := limitReader_err _ _ maxJsonSize_le_bigBlob
  have hdata : (LimitReader (File.stream ⟨bigBlob, false, false⟩) maxJsonSize).data
      = List.replicate 65536 0x5A := by
    rw [limitReader_data _ _ maxJsonSize_le_bigBlob, stream_data]
    unfold bigBlob
    exact List.take_left' (List.length_replicate _ _)
  have hidx : IndexAny (List.replicate 65536 0x5A) ref3.String = -1 := by
    unfold IndexAny
    simp only [show ref3.String.length > 0 by decide, if_true]
    exact indexAnyAux_replicate _ 0x5A (by norm_num) (by decide) _ _
  have hget : ([ref1, ref2] ++ [ref3]).getD (1 + 1) ⟨[], []⟩ = ref3 := rfl
  rw [hopInterior_ok _ _ _ _ _ _ _ hfetch, herr, hdata, hget, hidx]
  rfl

theorem checkChain_three_rejected (env : Env) (a b c : BlobRef)
    (hz : hopZero env [a, b, c] a 0 = .pass)
    (hint : hopInterior env [a, b, c] 1 b 1 = .unauthorized) :
    checkChain env [a, b, c] 0 [a, b, c] [] = (.unauthorized, [a, b]) := by
  simp [checkChain, hz, hint]

/-- C4 fails as stated: the chain `[ref1, ref2, ref3]` where the share `ref1`
has the target `ref2` and the interior blob `ref2` is 64 KiB of the letter `Z`
followed by the string form of `ref3`.  Hop 0 is a share with the right
target, the interior hop fetches and reads without error and its bytes contain
the string form of `ref3`; the handler reads only the first 64 KiB of the hop
and answers Unauthorized. -/
theorem handleGet_reference_after_64KiB :
    (ref3.String <:+: bigBlob) ∧
      bigEnv.fetch 1 ref2 = .ok ⟨bigBlob, false, false⟩ (bigBlob.length : Int) ∧
      (ReadAll (LimitReader (File.stream ⟨bigBlob, false, false⟩) maxJsonSize)).2 = false ∧
      (handleGet bigEnv (anonGet ref3 viaRef12)).conn = sendUnauthorized ⟨none, [], []⟩ ∧
      (handleGet bigEnv (anonGet ref3 viaRef12)).viaPathOkay = false ∧
      (handleGet bigEnv (anonGet ref3 viaRef12)).fetched = [ref1, ref2] := by
  have hz : hopZero bigEnv [ref1, ref2, ref3] ref1 0 = .pass := by decide
  have hparse : (if (anonGet ref3 viaRef12).via ≠ []
      then parseVia (splitComma (anonGet ref3 viaRef12).via) [] else some [])
      = some [ref1, ref2] := by decide
  have hG := handleGet_of_parsed bigEnv (anonGet ref3 viaRef12) ref3 [ref1, ref2] rfl rfl hparse
  have hcc : checkChain bigEnv ([ref1, ref2] ++ [ref3]) 0 ([ref1, ref2] ++ [ref3]) []
      = (.unauthorized, [ref1, ref2]) :=
    checkChain_three_rejected bigEnv ref1 ref2 ref3 hz hopInterior_bigBlob
  rw [hcc] at hG
  rw [hG]
  refine ⟨⟨List.replicate 65536 0x5A, [], ?_⟩, rfl, ?_, rfl, rfl, rfl⟩
  · unfold bigBlob
    rw [List.append_nil]
  · rw [readAll_snd]
    exact limitReader_err _ _ maxJsonSize_le_bigBlob

theorem checkChain_hopZero_rejected (env : Env) (share : BlobRef) (rest : List BlobRef)
    (hz : hopZero env (share :: rest) share 0 = .unauthorized) :
    checkChain env (share :: rest) 0 (share :: rest) [] = (.unauthorized, [share]) := by
  simp [checkChain, hz]

/-- The part of C5 that holds for every chain: hop 0 is answered Unauthorized,
and nothing further is fetched, when its fetch fails, or its size exceeds
64 KiB, or it does not decode as a JSON object, or its `camliType` is a string
other than "share", or its `camliType` is a string, the chain has a hop 1 and
its `target` is a string different from the string form of hop 1. -/
theorem handleGet_hopZero_rejected (env : Env) (req : Request) (t share : BlobRef)
    (viaBlobs : List BlobRef) (hown : req.isOwner = false) (ht : req.blobRef = some t)
    (hparse : (if req.via ≠ [] then parseVia (splitComma req.via) [] else some [])
      = some viaBlobs)
    (hs : (viaBlobs ++ [t])[0]? = some share)
    (hrej : (∃ e, env.fetch 0 share = .err e) ∨
      ∃ file size, env.fetch 0 share = .ok file size ∧
        (size > 64 * 1024 ∨ env.jsonDecode file.stream = none ∨
          ∃ m camliType, env.jsonDecode file.stream = some m ∧
            m (str "camliType") = some (.string camliType) ∧
            (camliType ≠ str "share" ∨
              ∃ next target, (viaBlobs ++ [t])[1]? = some next ∧
                m (str "target") = some (.string target) ∧ target ≠ next.String))) :
    (handleGet env req).conn = sendUnauthorized ⟨none, [], []⟩ ∧
      (handleGet env req).fetched = [share] ∧
      (handleGet env req).viaPathOkay = false ∧
      (handleGet env req).panicked = false := by
  have hG := handleGet_of_parsed env req t viaBlobs hown ht hparse
  obtain ⟨rest, hchain⟩ : ∃ rest, viaBlobs ++ [t] = share :: rest := by
    cases hc : viaBlobs ++ [t] with
    | nil => rw [hc] at hs; simp at hs
    | cons a l =>
      rw [hc] at hs
      simp only [List.getElem?_cons_zero, Option.some.injEq] at hs
      exact ⟨l, by rw [hs]⟩
  rw [hchain] at hG
  have hz : hopZero env (share :: rest) share 0 = .unauthorized := by
    unfold hopZero
    rcases hrej with ⟨e, he⟩ | ⟨file, size, hf, hcase⟩
    · simp [he]
    · simp only [hf]
      by_cases hsz : size > maxJsonSize
      · simp [hsz]
      · simp only [hsz, if_false]
        rcases hcase with h1 | h2 | ⟨m, ct, hm, hct, hlast⟩
        · exact absurd h1 (by simpa [maxJsonSize] using hsz)
        · simp [h2]
        · simp only [hm, hct]
          by_cases hne : ct = str "share"
          · rcases hlast with h | ⟨next, target, hnext, htarget, hdiff⟩
            · exact absurd hne h
            · rw [hchain] at hnext
              have hlen : (share :: rest).length > 1 := by
                by_contra hle
                rw [List.getElem?_eq_none (by omega)] at hnext
                cases hnext
              have hget : (share :: rest).getD 1 ⟨[], []⟩ = next := by
                rw [List.getD_eq_getElem?_getD, hnext]; rfl
              have hdiff2 : ¬ next.String = target := fun h => hdiff h.symm
              simp only [hne, ne_eq, not_true_eq_false, if_false, hlen, if_true, htarget, hget,
                hdiff2, not_false_eq_true]
          · simp [hne]
  rw [checkChain_hopZero_rejected env share rest hz] at hG
  rw [hG]
  exact ⟨rfl, rfl, rfl, rfl⟩

/-! ## Claims about the end of `handleGet`: the connection and the delay -/

theorem killConnection_of_success (h : HijackResult) (herr : h.err = false) :
    killConnection h = (false, false) := by
  simp [killConnection, herr]

theorem sendFile_connClosed (env : Env) (rr : RequestedRange) (file : File) (size : Int)
    (conn : Conn) (herr : env.hijack.err = false) :
    (sendFile env rr file size conn).2.1 = false := by
  unfold sendFile
  simp only []
  generalize (if rr.SkipBytes ≠ 0 then file.Seek rr.SkipBytes else some file.stream) = seeked
  cases seeked with
  | none => rfl
  | some fileStream =>
    simp only [killConnection_of_success env.hijack herr]
    split_ifs <;> rfl

/-- What holds in place of C12 when `Hijack` succeeds: for every request, the
handler never calls `Close` on the connection that a successful `Hijack`
returns. -/
theorem handleGet_never_closes_hijacked (env : Env) (req : Request)
    (herr : env.hijack.err = false) : (handleGet env req).connClosed = false := by
  have hs : ∀ t f, (serveBlob env req t ⟨none, [], []⟩ f).connClosed = false := by
    intro t f
    unfold serveBlob
    simp only
    split
    · rfl
    · rfl
    · exact sendFile_connClosed env _ _ _ _ herr
  unfold handleGet
  simp only
  split
  · rfl
  · split
    · split
      · rfl
      · split
        · rfl
        · rfl
        · exact hs _ _
    · exact hs _ _

/-- C12 at two failing inputs.  The owner asks for the blob `ref3`, the six
bytes `secret`.  First the connection fails after three bytes, so that
`io.Copy` returns an error; then the fetcher reports a size of ten bytes, so
that the six bytes copied differ from `remainBytes`.  Both times `Hijack`
succeeds with a usable connection, and the handler does not call `Close` on
it. -/
theorem handleGet_hijack_succeeds_no_close :
    (ioCopy shortWriteEnv.writeLimit (File.stream ⟨str "secret", false, false⟩)).2.2 = true ∧
      shortWriteEnv.hijack.err = false ∧ shortWriteEnv.hijack.closerNil = false ∧
      (handleGet shortWriteEnv (ownerGet ref3)).conn.body = str "sec" ∧
      (handleGet shortWriteEnv (ownerGet ref3)).connClosed = false ∧
      (handleGet shortWriteEnv (ownerGet ref3)).panicked = false ∧
      (ioCopy wrongSizeEnv.writeLimit (File.stream ⟨str "secret", false, false⟩)).2
        = ((6 : Int), false) ∧
      wrongSizeEnv.hijack.err = false ∧ wrongSizeEnv.hijack.closerNil = false ∧
      (handleGet wrongSizeEnv (ownerGet ref3)).conn.body = str "secret" ∧
      (handleGet wrongSizeEnv (ownerGet ref3)).connClosed = false ∧
      (handleGet wrongSizeEnv (ownerGet ref3)).panicked = false := by
  decide

theorem status_BadRequestError (msg : Bytes) :
    (BadRequestError ⟨none, [], []⟩ msg).status = some 400 := rfl

theorem handleGet_nonOwner_sleep (env : Env) (req : Request) (hown : req.isOwner = false) :
    ((handleGet env req).conn.status = some 401 →
        (handleGet env req).slept = deferredSleep env false) ∧
      ((handleGet env req).viaPathOkay = true → (handleGet env req).slept = none) := by
  cases ht : req.blobRef with
  | none =>
    have hG : handleGet env req
        = ⟨BadRequestError ⟨none, [], []⟩ (str "Malformed GET URL."), [], false, none, false,
            false⟩ := by
      unfold handleGet
      simp only [ht]
    rw [hG]
    exact ⟨fun h => by simp [status_BadRequestError] at h, fun h => by simp at h⟩
  | some t =>
    cases hparse : (if req.via ≠ [] then parseVia (splitComma req.via) [] else some []) with
    | none =>
      have hG : handleGet env req
          = ⟨BadRequestError ⟨none, [], []⟩ (str "Malformed blobref in via param"), [], false,
              deferredSleep env false, false, false⟩ := by
        unfold handleGet
        simp only [ht, hown, hparse]
        rfl
      rw [hG]
      exact ⟨fun _ => rfl, fun h => by simp at h⟩
    | some viaBlobs =>
      have hG := handleGet_of_parsed env req t viaBlobs hown ht hparse
      cases hc : checkChain env (viaBlobs ++ [t]) 0 (viaBlobs ++ [t]) [] with
      | mk hop fetched =>
        rw [hc] at hG
        cases hop with
        | pass =>
          simp only at hG
          rw [hG]
          refine ⟨fun h => ?_, fun _ => rfl⟩
          exact absurd h (serveBlob_status_ne_401 env req t fetched)
        | unauthorized =>
          simp only at hG
          rw [hG]
          exact ⟨fun _ => rfl, fun h => by simp at h⟩
        | panicked =>
          simp only at hG
          rw [hG]
          exact ⟨fun _ => rfl, fun h => by simp at h⟩

theorem handleGet_owner_sleep (env : Env) (req : Request) (hown : req.isOwner = true) :
    (handleGet env req).slept = none := by
  cases ht : req.blobRef with
  | none =>
    unfold handleGet
    simp only [ht]
  | some t =>
    have : handleGet env req = serveBlob env req t ⟨none, [], []⟩ [] := by
      unfold handleGet
      simp [ht, hown]
    rw [this]
    rfl

theorem deferredSleep_failed (env : Env)
    (hlo : 200000000 - 2 ^ 63 < env.endTime - env.startTime)
    (hhi : env.endTime - env.startTime < 2 ^ 63) :
    deferredSleep env false
      = if 0 < 200000000 - (env.endTime - env.startTime)
        then some (200000000 - (env.endTime - env.startTime)) else none := by
  simp only [deferredSleep, fetchFailureDelayNs]
  rw [i64_of_range _ (by omega) hhi, i64_of_range _ (by omega) (by omega)]
  simp

/-- C13: for a GET by somebody who is not the owner that ends with the
Unauthorized outcome, when the clock has advanced by `e` ns since `startTime`
(a difference of two `int64` readings that does not overflow), the deferred
function sleeps `200e6 - e` ns if that is positive and does not sleep
otherwise, that is `max 0 (200e6 - e)` ns, so that `e` plus the sleep is at
least 200 ms; for a GET by somebody who is not the owner whose chain check
passes (`viaPathOkay` is true) and for every GET of the owner no sleep is
requested. -/
theorem handleGet_failure_delay (env : Env) (req : Request) :
    (req.isOwner = false → (handleGet env req).conn.status = some 401 →
        200000000 - 2 ^ 63 < env.endTime - env.startTime →
        env.endTime - env.startTime < 2 ^ 63 →
        (handleGet env req).slept
            = (if 0 < 200000000 - (env.endTime - env.startTime)
              then some (200000000 - (env.endTime - env.startTime)) else none) ∧
          ((handleGet env req).slept).getD 0
            = max 0 (200000000 - (env.endTime - env.startTime)) ∧
          200000000 ≤ (env.endTime - env.startTime) + ((handleGet env req).slept).getD 0) ∧
      (req.isOwner = false → (handleGet env req).viaPathOkay = true →
        (handleGet env req).slept = none) ∧
      (req.isOwner = true → (handleGet env req).slept = none) := by
  refine ⟨fun hown h401 hlo hhi => ?_, fun hown hok => ?_, fun hown => ?_⟩
  · have hs := (handleGet_nonOwner_sleep env req hown).1 h401
    rw [deferredSleep_failed env hlo hhi] at hs
    rw [hs]
    refine ⟨rfl, ?_, ?_⟩
    · split
      · rename_i h
        simp only [Option.getD_some]
        omega
      · rename_i h
        simp only [Option.getD_none]
        omega
    · split
      · simp only [Option.getD_some]
        omega
      · rename_i h
        simp only [Option.getD_none]
        omega
  · exact (handleGet_nonOwner_sleep env req hown).2 hok
  · exact handleGet_owner_sleep env req hown

/-- C13 at three inputs: a target that is not in the store is answered
Unauthorized 5000 ns after the start and the handler sleeps the remaining
199995000 ns; a valid chain and a request of the owner request no sleep. -/
theorem handleGet_failure_delay_witness :
    ((handleGet (storeEnv []) (anonGet ref1 [])).slept
          = (if 0 < 200000000 - ((storeEnv []).endTime - (storeEnv []).startTime)
            then some (200000000 - ((storeEnv []).endTime - (storeEnv []).startTime))
            else none) ∧
        ((handleGet (storeEnv []) (anonGet ref1 [])).slept).getD 0
          = max 0 (200000000 - ((storeEnv []).endTime - (storeEnv []).startTime)) ∧
        200000000 ≤ ((storeEnv []).endTime - (storeEnv []).startTime)
          + ((handleGet (storeEnv []) (anonGet ref1 [])).slept).getD 0) ∧
      (handleGet (storeEnv []) (anonGet ref1 [])).slept = some 199995000 ∧
      (handleGet rangedEnv rangedGet).slept = none ∧
      (handleGet (storeEnv [(ref3, str "secret")]) (ownerGet ref3)).slept = none :=
  ⟨(handleGet_failure_delay (storeEnv []) (anonGet ref1 [])).1 rfl (by decide) (by decide)
      (by decide),
    by decide,
    (handleGet_failure_delay rangedEnv rangedGet).2.1 rfl (by decide),
    (handleGet_failure_delay (storeEnv [(ref3, str "secret")]) (ownerGet ref3)).2.2 rfl⟩

/-! ## Claims about `UploadFile` on a directory -/

theorem SortStrings_sorted (a : List Bytes) : (SortStrings a).Sorted (· ≤ ·) :=
  List.sorted_insertionSort _ a

theorem SortStrings_perm (a : List Bytes) : (SortStrings a).Perm a :=
  List.perm_insertionSort _ a

theorem SortStrings_eq_of_perm {a b : List Bytes} (h : a.Perm b) :
    SortStrings a = SortStrings b :=
  List.eq_of_perm_of_sorted ((SortStrings_perm a).trans (h.trans (SortStrings_perm b).symm))
    (SortStrings_sorted a) (SortStrings_sorted b)

theorem uploadChildren_map (env : UploadEnv) (child : Bytes → FsNode) (filename : Bytes) :
    ∀ listing : List Bytes,
      uploadChildren env (listing.map (fun n => (n, child n))) filename
        = listing.map (fun n => (n, UploadFile env (child n) (filename ++ str "/" ++ n))) := by
  intro listing
  induction listing with
  | nil => simp [uploadChildren]
  | cons n rest ih => simp [uploadChildren, ih]

theorem childOutcome_map (out : Bytes → Outcome) :
    ∀ (listing : List Bytes) (name : Bytes), name ∈ listing →
      childOutcome (listing.map (fun n => (n, out n))) name = out name := by
  intro listing
  induction listing with
  | nil => intro name h; simp at h
  | cons n rest ih =>
    intro name h
    by_cases hn : name = n
    · subst hn
      simp [childOutcome, List.lookup]
    · have hmem : name ∈ rest := by
        rcases List.mem_cons.1 h with h1 | h1
        · exact absurd h1 hn
        · exact h1
      have hbeq : (name == n) = false := by simpa using hn
      have := ih name hmem
      simp only [childOutcome, List.map_cons, List.lookup, hbeq] at this ⊢
      exact this

theorem uploadEntries_congr (f g : Bytes → Outcome) :
    ∀ (l : List Bytes) (ss : List BlobRef) (uploaded : List UploadHandle),
      (∀ n ∈ l, f n = g n) → uploadEntries f l ss uploaded = uploadEntries g l ss uploaded := by
  intro l
  induction l with
  | nil => intro ss uploaded _; rfl
  | cons n rest ih =>
    intro ss uploaded h
    simp only [uploadEntries, h n (List.mem_cons_self _ _)]
    split
    · rfl
    · exact ih _ _ (fun m hm => h m (List.mem_cons_of_mem _ hm))

theorem uploadEntries_ok (out : Bytes → Outcome) (refs : Bytes → PutResult) :
    ∀ (l : List Bytes) (ss : List BlobRef) (uploaded : List UploadHandle),
      (∀ n ∈ l, (out n).1 = .ok (refs n)) →
      uploadEntries out l ss uploaded
        = (.ok (ss ++ l.map (fun n => (refs n).BlobRef)),
            uploaded ++ l.flatMap (fun n => (out n).2)) := by
  intro l
  induction l with
  | nil => intro ss uploaded _; simp [uploadEntries]
  | cons n rest ih =>
    intro ss uploaded h
    have hn := h n (List.mem_cons_self _ _)
    cases ho : out n with
    | mk r lg =>
      rw [ho] at hn
      simp only at hn
      subst hn
      simp only [uploadEntries, ho]
      rw [ih _ _ (fun m hm => h m (List.mem_cons_of_mem _ hm))]
      simp [ho]

theorem uploadEntries_error (out : Bytes → Outcome) (bad : Bytes) (post : List Bytes)
    (err : Error) (hbad : (out bad).1 = .error err) :
    ∀ (pre : List Bytes) (ss : List BlobRef) (uploaded : List UploadHandle),
      (∀ n ∈ pre, ∃ pr, (out n).1 = .ok pr) →
      uploadEntries out (pre ++ bad :: post) ss uploaded
        = (.error err, uploaded ++ (pre ++ [bad]).flatMap (fun n => (out n).2)) := by
  intro pre
  induction pre with
  | nil =>
    intro ss uploaded _
    cases ho : out bad with
    | mk r lg =>
      rw [ho] at hbad
      simp only at hbad
      subst hbad
      simp [uploadEntries, ho]
  | cons n rest ih =>
    intro ss uploaded h
    obtain ⟨pr, hn⟩ := h n (List.mem_cons_self _ _)
    cases ho : out n with
    | mk r lg =>
      rw [ho] at hn
      simp only at hn
      subst hn
      simp only [List.cons_append, uploadEntries, ho]
      rw [show rest.append (bad :: post) = rest ++ bad :: post from rfl,
        ih _ _ (fun m hm => h m (List.mem_cons_of_mem _ hm))]
      simp [ho]

theorem UploadFile_directory_loop (env : UploadEnv) (filename : Bytes) (fi : FileInfo)
    (dir : File) (names listing : List Bytes) (child : Bytes → FsNode)
    (hperm : listing.Perm names) (hreg : fi.IsRegular = false) (hsym : fi.IsSymlink = false)
    (hdir : fi.IsDirectory = true) :
    UploadFile env (.mk (.ok fi) (.ok dir) none (listing.map (fun n => (n, child n)))) filename
      = match uploadEntries (fun n => UploadFile env (child n) (filename ++ str "/" ++ n))
          (SortStrings names) [] [] with
        | (.error err, l) => (.error err, l)
        | (.ok ss, l) =>
          match UploadMap env (env.staticSetMap ss) with
          | (.error err, l2) => (.error err, l ++ l2)
          | (.ok sspr, l2) =>
            ((UploadMap env (env.PopulateDirectoryMap (env.NewCommonFileMap filename fi)
                sspr.BlobRef)).1,
              l ++ l2 ++ (UploadMap env (env.PopulateDirectoryMap
                (env.NewCommonFileMap filename fi) sspr.BlobRef)).2) := by
  have hnames : (listing.map (fun n => (n, child n))).map Prod.fst = listing := by
    simp [List.map_map, Function.comp_def]
  have hsort : SortStrings listing = SortStrings names := SortStrings_eq_of_perm hperm
  have hloop : uploadEntries
      (childOutcome (uploadChildren env (listing.map (fun n => (n, child n))) filename))
      (SortStrings names) [] []
      = uploadEntries (fun n => UploadFile env (child n) (filename ++ str "/" ++ n))
          (SortStrings names) [] [] := by
    apply uploadEntries_congr
    intro n hn
    rw [uploadChildren_map]
    apply childOutcome_map (fun n => UploadFile env (child n) (filename ++ str "/" ++ n))
    exact hperm.mem_iff.2 ((SortStrings_perm names).mem_iff.1 hn)
  rw [UploadFile]
  simp only [hreg, hsym, hdir, hnames, hsort, hloop, Bool.false_eq_true, if_false, if_true]

theorem exists_first_failure (out : Bytes → Outcome) :
    ∀ l : List Bytes, (∃ n ∈ l, ∃ err, (out n).1 = .error err) →
      ∃ pre bad post err, l = pre ++ bad :: post ∧
        (∀ n ∈ pre, ∃ pr, (out n).1 = .ok pr) ∧ (out bad).1 = .error err := by
  intro l
  induction l with
  | nil => rintro ⟨n, hn, _⟩; simp at hn
  | cons a rest ih =>
    rintro ⟨n, hn, err, herr⟩
    cases ha : (out a).1 with
    | error e => exact ⟨[], a, rest, e, rfl, by simp, ha⟩
    | ok pr =>
      have hrest : n ∈ rest := by
        rcases List.mem_cons.1 hn with h | h
        · subst h
          rw [ha] at herr
          cases herr
        · exact h
      obtain ⟨pre, bad, post, e, hsplit, hpre, hbad⟩ := ih ⟨n, hrest, err, herr⟩
      refine ⟨a :: pre, bad, post, e, by simp [hsplit], ?_, hbad⟩
      intro m hm
      rcases List.mem_cons.1 hm with h | h
      · subst h
        exact ⟨pr, ha⟩
      · exact hpre m h

/-- C11: a directory whose listing is any permutation of the names `names`.
The handler works through the names in ascending order (`SortStrings names`,
sorted, a permutation of the names).  When every child uploads successfully,
the static set gets the references of the children in that order, one for
each entry, whatever the order of the listing, and the static set and then the
directory map are uploaded after the uploads of the children.  When a child
fails, the upload of the directory fails with the error of the first child in
name order that fails, and only the uploads of the children up to it were
made: no static set and no directory map is uploaded. -/
theorem UploadFile_directory (env : UploadEnv) (filename : Bytes) (fi : FileInfo) (dir : File)
    (names listing : List Bytes) (child : Bytes → FsNode)
    (hperm : listing.Perm names) (hreg : fi.IsRegular = false) (hsym : fi.IsSymlink = false)
    (hdir : fi.IsDirectory = true) :
    (SortStrings names).Sorted (· ≤ ·) ∧ (SortStrings names).Perm names ∧
      (∀ refs : Bytes → PutResult,
        (∀ n ∈ names, (UploadFile env (child n) (filename ++ str "/" ++ n)).1 = .ok (refs n)) →
        UploadFile env (.mk (.ok fi) (.ok dir) none (listing.map (fun n => (n, child n))))
            filename
          = match UploadMap env
              (env.staticSetMap ((SortStrings names).map (fun n => (refs n).BlobRef))) with
            | (.error err, l2) =>
              (.error err, (SortStrings names).flatMap
                (fun n => (UploadFile env (child n) (filename ++ str "/" ++ n)).2) ++ l2)
            | (.ok sspr, l2) =>
              ((UploadMap env (env.PopulateDirectoryMap (env.NewCommonFileMap filename fi)
                  sspr.BlobRef)).1,
                (SortStrings names).flatMap
                    (fun n => (UploadFile env (child n) (filename ++ str "/" ++ n)).2)
                  ++ l2 ++ (UploadMap env (env.PopulateDirectoryMap
                    (env.NewCommonFileMap filename fi) sspr.BlobRef)).2)) ∧
      (∀ (pre : List Bytes) (bad : Bytes) (post : List Bytes) (err : Error),
        SortStrings names = pre ++ bad :: post →
        (∀ n ∈ pre, ∃ pr, (UploadFile env (child n) (filename ++ str "/" ++ n)).1 = .ok pr) →
        (UploadFile env (child bad) (filename ++ str "/" ++ bad)).1 = .error err →
        UploadFile env (.mk (.ok fi) (.ok dir) none (listing.map (fun n => (n, child n))))
            filename
          = (.error err, (pre ++ [bad]).flatMap
              (fun n => (UploadFile env (child n) (filename ++ str "/" ++ n)).2))) ∧
      ((∃ n ∈ names, ∃ err,
          (UploadFile env (child n) (filename ++ str "/" ++ n)).1 = .error err) →
        ∃ pre bad post err, SortStrings names = pre ++ bad :: post ∧
          (∀ n ∈ pre, ∃ pr,
            (UploadFile env (child n) (filename ++ str "/" ++ n)).1 = .ok pr) ∧
          (UploadFile env (child bad) (filename ++ str "/" ++ bad)).1 = .error err ∧
          UploadFile env (.mk (.ok fi) (.ok dir) none (listing.map (fun n => (n, child n))))
              filename
            = (.error err, (pre ++ [bad]).flatMap
                (fun n => (UploadFile env (child n) (filename ++ str "/" ++ n)).2))) := by
  have hloop := UploadFile_directory_loop env filename fi dir names listing child hperm hreg
    hsym hdir
  have hfail : ∀ (pre : List Bytes) (bad : Bytes) (post : List Bytes) (err : Error),
      SortStrings names = pre ++ bad :: post →
      (∀ n ∈ pre, ∃ pr, (UploadFile env (child n) (filename ++ str "/" ++ n)).1 = .ok pr) →
      (UploadFile env (child bad) (filename ++ str "/" ++ bad)).1 = .error err →
      UploadFile env (.mk (.ok fi) (.ok dir) none (listing.map (fun n => (n, child n))))
          filename
        = (.error err, (pre ++ [bad]).flatMap
            (fun n => (UploadFile env (child n) (filename ++ str "/" ++ n)).2)) := by
    intro pre bad post err hsplit hpre hbad
    rw [hloop, hsplit,
      uploadEntries_error (fun n => UploadFile env (child n) (filename ++ str "/" ++ n)) bad post
        err hbad pre [] [] hpre]
    simp
  refine ⟨SortStrings_sorted names, SortStrings_perm names, ?_, hfail, ?_⟩
  · intro refs hok
    have hsorted : ∀ n ∈ SortStrings names,
        (UploadFile env (child n) (filename ++ str "/" ++ n)).1 = .ok (refs n) :=
      fun n hn => hok n ((SortStrings_perm names).mem_iff.1 hn)
    rw [hloop, uploadEntries_ok _ refs _ [] [] hsorted]
    simp only [List.nil_append]
  · rintro ⟨n, hn, err, herr⟩
    obtain ⟨pre, bad, post, e, hsplit, hpre, hbad⟩ :=
      exists_first_failure (fun n => UploadFile env (child n) (filename ++ str "/" ++ n))
        (SortStrings names) ⟨n, (SortStrings_perm names).mem_iff.2 hn, err, herr⟩
    exact ⟨pre, bad, post, e, hsplit, hpre, hbad, hfail pre bad post e hsplit hpre hbad⟩

/-- C11 at the input of the claim: the listing `["b.txt", "a.txt"]` of the two
regular files `a.txt` and `b.txt` is worked through as `["a.txt", "b.txt"]`,
and the static set gets the reference of `a.txt` before that of `b.txt`; with
the listing `["c.txt", "a.txt"]`, where `c.txt` cannot be read, the upload
fails with the error of `c.txt` after the uploads for `a.txt` alone. -/
theorem UploadFile_directory_witness :
    SortStrings [str "b.txt", str "a.txt"] = [str "a.txt", str "b.txt"] ∧
      UploadFile exampleUploadEnv
          (.mk (.ok ⟨false, false, true, 0⟩) (.ok ⟨[], false, false⟩) none
            ([str "b.txt", str "a.txt"].map (fun n => (n, exampleChild n)))) (str "dir")
        = (match UploadMap exampleUploadEnv
              (exampleUploadEnv.staticSetMap ((SortStrings [str "a.txt", str "b.txt"]).map
                (fun n => (exampleRefs n).BlobRef))) with
            | (.error err, l2) =>
              (.error err, (SortStrings [str "a.txt", str "b.txt"]).flatMap
                (fun n => (UploadFile exampleUploadEnv (exampleChild n)
                  (str "dir" ++ str "/" ++ n)).2) ++ l2)
            | (.ok sspr, l2) =>
              ((UploadMap exampleUploadEnv (exampleUploadEnv.PopulateDirectoryMap
                  (exampleUploadEnv.NewCommonFileMap (str "dir") ⟨false, false, true, 0⟩)
                  sspr.BlobRef)).1,
                (SortStrings [str "a.txt", str "b.txt"]).flatMap
                    (fun n => (UploadFile exampleUploadEnv (exampleChild n)
                      (str "dir" ++ str "/" ++ n)).2)
                  ++ l2 ++ (UploadMap exampleUploadEnv (exampleUploadEnv.PopulateDirectoryMap
                    (exampleUploadEnv.NewCommonFileMap (str "dir") ⟨false, false, true, 0⟩)
                    sspr.BlobRef)).2)) ∧
      UploadFile exampleUploadEnv
          (.mk (.ok ⟨false, false, true, 0⟩) (.ok ⟨[], false, false⟩) none
            ([str "c.txt", str "a.txt"].map (fun n => (n, exampleChild n)))) (str "dir")
        = (.error errNotExist, ([str "a.txt"] ++ [str "c.txt"]).flatMap
            (fun n => (UploadFile exampleUploadEnv (exampleChild n)
              (str "dir" ++ str "/" ++ n)).2)) :=
  ⟨by decide,
    (UploadFile_directory exampleUploadEnv (str "dir") ⟨false, false, true, 0⟩
        ⟨[], false, false⟩ [str "a.txt", str "b.txt"] [str "b.txt", str "a.txt"] exampleChild
        (List.Perm.swap _ _ _) rfl rfl rfl).2.2.1 exampleRefs
      (by
        intro n hn
        simp only [List.mem_cons, List.mem_singleton, List.not_mem_nil, or_false] at hn
        rcases hn with rfl | rfl <;> rfl),
    (UploadFile_directory exampleUploadEnv (str "dir") ⟨false, false, true, 0⟩
        ⟨[], false, false⟩ [str "a.txt", str "c.txt"] [str "c.txt", str "a.txt"] exampleChild
        (List.Perm.swap _ _ _) rfl rfl rfl).2.2.2.1 [str "a.txt"] (str "c.txt") [] errNotExist
      (by decide)
      (by
        intro n hn
        simp only [List.mem_singleton] at hn
        subst hn
        exact ⟨exampleRefs (str "a.txt"), rfl⟩)
      (by rfl)⟩

/-- The uploads of the example directory with the listing `["b.txt", "a.txt"]`,
by their texts: the blob and the file map of `a.txt`, the blob and the file
map of `b.txt`, the static set with the reference of `a.txt` before that of
`b.txt`, and the directory map. -/
theorem UploadFile_directory_example :
    (UploadFile exampleUploadEnv
        (.mk (.ok ⟨false, false, true, 0⟩) (.ok ⟨[], false, false⟩) none
          ([str "b.txt", str "a.txt"].map (fun n => (n, exampleChild n))))
        (str "dir")).2.map (fun h => h.Contents.data)
      = [str "alpha",
          str ("fileName=dir/a.txt;camliType=file;"
            ++ "contentParts=sha1-be76331b95dfc399cd776d2fc68021e0db03cc4f,;"),
          str "beta",
          str ("fileName=dir/b.txt;camliType=file;"
            ++ "contentParts=sha1-a295e0bdde1938d1fbfd343e5a3e569e868e1465,;"),
          str ("camliType=static-set;members=sha1-3dd75b3af34edf563c7764ddb7a9d6a414296c49,"
            ++ "sha1-d12ff25ded3ddaad04ffe2e31da73a5b4d949190,;"),
          str ("fileName=dir;camliType=directory;"
            ++ "entries=sha1-cc06b3a58689e0786459a5396a2be904834dc252;")] := by
  decide
end Camli
